import Mathlib

/-
Verification development for the BUI attendance kiosk.

The repository has two variants of the same kiosk:
  * `app/attendance_kiosk.py` — daily-sheet variant (one sheet per date),
  * `app/web_app.py` — matrix variant (one "Attendance" matrix sheet, a
    normalized "Attendance Log" sheet, late flagging, end-of-day finalize).

This file is a shallow embedding of the core logic of both variants:
Python strings are Lean `String` (ASCII-faithful models of `str.strip`,
`str.casefold`, `str.upper`), worksheet state is a row-major grid of cell
values, and the wall clock / timezone is an explicit parameter.  UI code,
file I/O, column autosizing and cell number formats are presentation
concerns and are not part of the model; operator-visible message strings
are modelled by the boolean outcome that selects them.
-/

/-! ### Python string primitives -/

/-- Whitespace test used by Python `str.strip` (ASCII subset, matching
`Char.isWhitespace`). -/
def isWS (c : Char) : Bool := c.isWhitespace

/-- Strip whitespace from both ends of a character list (model of Python
`str.strip()` with no arguments): drop from the front, then from the
back. -/
def stripList (l : List Char) : List Char :=
  List.rdropWhile isWS (l.dropWhile isWS)

/-- Model of Python `str.strip()`. -/
def pyStrip (s : String) : String := ⟨stripList s.data⟩

/-- Model of Python `str.casefold()` (agrees with casefold on ASCII, the
alphabet the kiosk actually uses). -/
def casefold (s : String) : String := ⟨s.data.map Char.toLower⟩

/-- Model of Python `str.upper()` (ASCII). -/
def upperStr (s : String) : String := ⟨s.data.map Char.toUpper⟩

/-! ### Cell values and worksheet grids -/

/-- Value held by one spreadsheet cell, as the two apps use them: `vNone`
is an unset cell (Python `None`), `vStr` a string, `vTime` a
`datetime.time` (written by `mark_present`), `vDt` a naive `datetime`
(written into log timestamp cells); the date part of a `datetime` is an
abstract day number. -/
inductive CellVal where
  | vNone
  | vStr (s : String)
  | vTime (h m sec micro : Nat)
  | vDt (d : Nat) (h m sec micro : Nat)

deriving instance DecidableEq for CellVal

/-- Render `n % 10` as a decimal digit character. -/
def digitOf (n : Nat) : Char := Nat.digitChar (n % 10)

/-- Two-digit zero-padded decimal rendering (as `"%02d"`). -/
def twoDigits (n : Nat) : String := ⟨[digitOf (n / 10), digitOf n]⟩

/-- Six-digit zero-padded decimal rendering (as `"%06d"`, used for
microseconds). -/
def sixDigits (n : Nat) : String :=
  ⟨[digitOf (n / 100000), digitOf (n / 10000), digitOf (n / 1000),
    digitOf (n / 100), digitOf (n / 10), digitOf n]⟩

/-- Model of Python `str(datetime.time(h, m, sec, micro))`. -/
def timeStr (h m sec micro : Nat) : String :=
  twoDigits h ++ ":" ++ twoDigits m ++ ":" ++ twoDigits sec ++
    (if micro = 0 then "" else "." ++ sixDigits micro)

/-- Model of Python `str(cell.value)`; only applied to truthy values in the
source, and the exact rendering of time/datetime values is never compared
against anything there. -/
def cellStr : CellVal → String
  | CellVal.vNone => "None"
  | CellVal.vStr s => s
  | CellVal.vTime h m sec micro => timeStr h m sec micro
  | CellVal.vDt d h m sec micro =>
      toString d ++ " " ++ timeStr h m sec micro

/-- Python truthiness of a cell value (`None` and `""` are falsy; `time`
and `datetime` objects are always truthy). -/
def truthy : CellVal → Bool
  | CellVal.vNone => false
  | CellVal.vStr s => s ≠ ""
  | CellVal.vTime _ _ _ _ => true
  | CellVal.vDt _ _ _ _ _ => true

/-- Worksheet: a row-major grid; row 1 is the header row. -/
abbrev Grid := List (List CellVal)

/-- Extend a list to length at least `n`, padding with `d`. -/
def padTo {α : Type} (l : List α) (n : Nat) (d : α) : List α :=
  l ++ List.replicate (n - l.length) d

/-- Read a cell (1-indexed, like openpyxl `ws.cell(row, column).value`);
cells outside the written area read as `None`. -/
def getCell (g : Grid) (r c : Nat) : CellVal :=
  (g.getD (r-1) []).getD (c-1) CellVal.vNone

/-- Write a value into one cell of one row (1-indexed). -/
def setRow (row : List CellVal) (c : Nat) (v : CellVal) : List CellVal :=
  (padTo row c CellVal.vNone).set (c-1) v

/-- Write a cell (1-indexed), growing the grid as openpyxl does. -/
def setCell (g : Grid) (r c : Nat) (v : CellVal) : Grid :=
  let g1 := padTo g r []
  g1.set (r-1) (setRow (g1.getD (r-1) []) c v)

/-- Model of openpyxl `ws.append`: a new row after the existing ones. -/
def appendRow (g : Grid) (row : List CellVal) : Grid := g ++ [row]

/-- Model of openpyxl `ws.max_row` (at least 1, even when empty). -/
def maxRow (g : Grid) : Nat := max g.length 1

/-- Model of openpyxl `ws.max_column` (at least 1, even when empty). -/
def maxCol (g : Grid) : Nat :=
  max (g.foldr (fun row acc => max row.length acc) 0) 1

/-! ### Registry (Students sheet) -/

def STATUS_REGISTERED : String := "Registered"

def STATUS_UNREGISTERED : String := "Unregistered"

/-- Header rewrite of the legacy migration: set A1 to "Name" and B1 to
"OfficialStatus". -/
def migrateHeader (g : Grid) : Grid :=
  setCell (setCell g 1 1 (CellVal.vStr "Name")) 1 2
    (CellVal.vStr "OfficialStatus")

/-- Backfill loop of the legacy migration: every row 2..max with a truthy
name and falsy status gets status Registered. -/
def migrateStudents (g : Grid) : Grid :=
  (List.range' 2 (maxRow (migrateHeader g) - 1)).foldl
    (fun gr r =>
      if truthy (getCell gr r 1) ∧ ¬ truthy (getCell gr r 2) then
        setCell gr r 2 (CellVal.vStr STATUS_REGISTERED)
      else gr)
    (migrateHeader g)

/-- Condition under which `get_or_create_students_sheet` migrates: the old
header name, or a "Name" header with no second header cell. -/
def legacyShape (g : Grid) : Prop :=
  getCell g 1 1 = CellVal.vStr "Registered Student Name" ∨
    (getCell g 1 1 = CellVal.vStr "Name" ∧
      (if 2 ≤ maxCol g then getCell g 1 2 else CellVal.vNone) = CellVal.vNone)

instance (g : Grid) : Decidable (legacyShape g) := by
  unfold legacyShape; infer_instance

/-- Source: `get_or_create_students_sheet` (both files), the branch for an
existing sheet: detect the legacy header shape and migrate it in place,
defaulting missing statuses to Registered.  The sheet-creation branch is
the store adapter's concern and the grid model presumes the sheet exists
(an absent sheet is the empty grid, which the legacy test leaves alone). -/
def get_or_create_students_sheet (g : Grid) : Grid :=
  if legacyShape g then migrateStudents g else g

/-- Registry entry: `(casefold key, official name, official status)` —
one binding of the Python dict `students`. -/
abbrev RegEntry := String × String × String

/-- Source: the per-row processing inside `load_students`: skip rows whose
first cell is falsy, strip the name, default a falsy/missing status to
Unregistered. -/
def rowEntry (row : List CellVal) : Option (String × String) :=
  if truthy (row.getD 0 CellVal.vNone) then
    some (pyStrip (cellStr (row.getD 0 CellVal.vNone)),
      if truthy (row.getD 1 CellVal.vNone) then
        pyStrip (cellStr (row.getD 1 CellVal.vNone))
      else STATUS_UNREGISTERED)
  else none

/-- One iteration of the `load_students` loop: insert the processed row
into the dict and name list unless its key is already bound. -/
def loadStep (acc : List RegEntry × List String) (row : List CellVal) :
    List RegEntry × List String :=
  match rowEntry row with
  | none => acc
  | some (name, status) =>
    if (acc.1.find? (fun e => e.1 = casefold name)).isSome then acc
    else (acc.1 ++ [(casefold name, name, status)], acc.2 ++ [name])

/-- Source: the loop of `load_students`: fold the data rows into the
insertion-ordered dict (association list keyed by `casefold name`,
keeping the first occurrence) and the parallel list of official names. -/
def load_students_entries (rows : List (List CellVal)) :
    List RegEntry × List String :=
  rows.foldl loadStep ([], [])

/-- Source: `load_students` (both files): ensure/migrate the Students
sheet, then read the registry map and display-name list from its data
rows.  Returns the possibly-migrated sheet alongside. -/
def load_students (g : Grid) : Grid × List RegEntry × List String :=
  let g1 := get_or_create_students_sheet g
  (g1, (load_students_entries (g1.drop 1)).1,
    (load_students_entries (g1.drop 1)).2)

/-- Python `students.get(key)` on the registry dict. -/
def lookupReg (reg : List RegEntry) (k : String) : Option (String × String) :=
  (reg.find? (fun e => e.1 = k)).map (fun e => (e.2.1, e.2.2))

/-- Source: `add_student_as_unregistered` (kiosk file; the registry-sheet
logic is identical in `web_app.py`).  Returns (success, resulting sheet);
the message strings are selected by the boolean. -/
def add_student_as_unregistered (g : Grid) (name : String) :
    Bool × Grid :=
  let nm := pyStrip name
  if nm = "" then (false, g)
  else
    let g1 := (load_students g).1
    let reg := (load_students g).2.1
    if (lookupReg reg (casefold nm)).isSome then (false, g1)
    else
      let g2 := get_or_create_students_sheet g1
      (true, appendRow g2 [CellVal.vStr nm, CellVal.vStr STATUS_UNREGISTERED])

/-! ### Matching and suggestions -/

/-- Source: `canonical_match` (both files). -/
def canonical_match (typed : String) (reg : List RegEntry) :
    Option (String × String) :=
  let t := pyStrip typed
  if t = "" then none
  else lookupReg reg (casefold t)

/-- Length of the equal run starting at the heads of two character lists
(the length `j2len` accumulates in difflib `find_longest_match`). -/
def runLen : List Char → List Char → Nat
  | a :: as, b :: bs => if a = b then runLen as bs + 1 else 0
  | _, _ => 0

/-- Longest matching block of two character lists, ties resolved to the
earliest start in `a`, then the earliest start in `b` — the block
difflib's `find_longest_match` returns when the junk sets are empty (they
are empty for inputs under difflib's autojunk threshold of 200
characters, which covers every name the kiosk handles). -/
def bestMatch (a b : List Char) : Nat × Nat × Nat :=
  (List.range a.length).foldl
    (fun best i =>
      (List.range b.length).foldl
        (fun best j =>
          let k := runLen (a.drop i) (b.drop j)
          if best.2.2 < k then (i, j, k) else best)
        best)
    (0, 0, 0)

/-- Total size of the matching blocks of difflib `get_matching_blocks`,
computed by the same divide-around-the-longest-block recursion; the fuel
bounds the recursion depth (each level removes at least one character of
`a`, so `a.length + b.length` always suffices). -/
def matchSumAux : Nat → List Char → List Char → Nat
  | 0, _, _ => 0
  | fuel+1, a, b =>
    let ijk := bestMatch a b
    let i := ijk.1
    let j := ijk.2.1
    let k := ijk.2.2
    if k = 0 then 0
    else
      matchSumAux fuel (a.take i) (b.take j) + k +
        matchSumAux fuel (a.drop (i+k)) (b.drop (j+k))

/-- Total matched characters between two character lists (difflib's `M`). -/
def matchSum (a b : List Char) : Nat :=
  matchSumAux (a.length + b.length) a b

/-- Similarity of difflib `SequenceMatcher.ratio()`: `2M / T`, as an exact
rational (the floating-point value Python computes rounds this; for the
short strings involved the comparisons agree). -/
def ratioQ (a b : List Char) : ℚ :=
  (2 * (matchSum a b : ℚ)) / ((a.length : ℚ) + (b.length : ℚ))

/-- Ratio of a string pair kept in difflib's candidate tuples, represented
exactly by its unreduced fraction `(M, T)` with value `2M / T`. -/
def ratioRep (a b : List Char) : Nat × Nat :=
  (matchSum a b, a.length + b.length)

/-- Value of a represented ratio. -/
def repQ (p : Nat × Nat) : ℚ := (2 * (p.1 : ℚ)) / (p.2 : ℚ)

/-- Comparison `2 p₁ / p₂ < 2 q₁ / q₂` by cross-multiplication (exact
version of the float comparison, for positive denominators). -/
def fracLt (p q : Nat × Nat) : Bool := decide (p.1 * q.2 < q.1 * p.2)

/-- Equality `2 p₁ / p₂ = 2 q₁ / q₂` by cross-multiplication. -/
def fracEq (p q : Nat × Nat) : Bool := decide (p.1 * q.2 = q.1 * p.2)

/-- One dict-comprehension step of `{nm.casefold(): nm for nm in names}`:
bind the key, overwriting the value if the key is already present. -/
def buildStep (m : List (String × String)) (nm : String) :
    List (String × String) :=
  if (m.find? (fun p => p.1 = casefold nm)).isSome then
    m.map (fun p => if p.1 = casefold nm then (casefold nm, nm) else p)
  else m ++ [(casefold nm, nm)]

/-- The map `{nm.casefold(): nm for nm in names}` from `get_suggestions`:
keys in first-occurrence order, value of a repeated key overwritten by the
later spelling (Python dict-comprehension semantics). -/
def buildNameMap (names : List String) : List (String × String) :=
  names.foldl buildStep []

/-- Python dict lookup `name_map[c]` (total because `get_suggestions` only
looks up keys of the map). -/
def mapGet (m : List (String × String)) (k : String) : String :=
  ((m.find? (fun p => p.1 = k)).map (fun p => p.2)).getD ""

/-- Python string comparison `s < t`: lexicographic by code point. -/
def strLtb : List Char → List Char → Bool
  | [], [] => false
  | [], _ :: _ => true
  | _ :: _, [] => false
  | a :: as, b :: bs =>
    if a.toNat < b.toNat then true
    else if b.toNat < a.toNat then false
    else strLtb as bs

/-- Ordering used by `heapq.nlargest` on the `(ratio, key)` pairs of
`get_close_matches`: descending tuple order — larger ratio first, equal
ratios resolved by the larger (casefolded) string first (Python tuple
comparison). -/
def tupleBefore (x y : (Nat × Nat) × String) : Bool :=
  fracLt y.1 x.1 || (fracEq x.1 y.1 && ! strLtb x.2.data y.2.data)

/-- Insert into a list sorted by `le` (meaning: goes no later than). -/
def insertBy {α : Type} (le : α → α → Bool) (x : α) : List α → List α
  | [] => [x]
  | y :: ys => if le x y then x :: y :: ys else y :: insertBy le x ys

/-- Insertion sort by `le`. -/
def sortBy {α : Type} (le : α → α → Bool) : List α → List α
  | [] => []
  | x :: xs => insertBy le x (sortBy le xs)

/-- Source: `get_suggestions` (both files): close matches of the casefolded
input against the casefolded registry names with cutoff 0.70, best `n`
first (`difflib.get_close_matches` keeps pairs whose ratio passes the
cutoff — its quick-ratio prefilters are upper bounds of the ratio, so they
reject nothing the ratio admits — and returns the `n` largest
`(ratio, key)` tuples in descending tuple order). -/
def get_suggestions (typed : String) (names : List String) (n : Nat) :
    List String :=
  let t := pyStrip typed
  if t = "" then []
  else
    let nameMap := buildNameMap names
    let word := (casefold t).data
    let result := nameMap.filterMap
      (fun p =>
        if 7 * ((p.1).data.length + word.length) ≤
            20 * matchSum (p.1).data word then
          some (ratioRep (p.1).data word, p.1)
        else none)
    let close := (sortBy tupleBefore result).take n
    close.map (fun p => mapGet nameMap p.2)

/-! ### Daily-sheet variant (attendance_kiosk.py) -/

/-- Row test shared by the scan of `already_signed_in_today`: a data row
participates when it has a truthy name in column 2, and matches when that
name casefolds to the target. -/
def rowMatches (row : List CellVal) (target : String) : Bool :=
  if row = [] ∨ row.length < 2 ∨ ¬ truthy (row.getD 1 CellVal.vNone) then
    false
  else casefold (pyStrip (cellStr (row.getD 1 CellVal.vNone))) = target

/-- Source: `already_signed_in_today`: case-insensitive scan of today's
sheet for the stripped name; a name that strips to empty never matches. -/
def already_signed_in_today (rows : Grid) (name : String) : Bool :=
  let target := casefold (pyStrip name)
  if target = "" then false
  else (rows.drop 1).any (fun row => rowMatches row target)

/-- Source: `log_attendance`: append `(time, name, status)` to today's
sheet unless the duplicate guard fires.  The sheet-per-date bookkeeping of
`get_or_create_daily_sheet` is the store adapter's concern: the model acts
on today's sheet, and the current time string is a parameter (the returned
sheet name is the date, also external).  Returns (new sheet, did_log). -/
def log_attendance (rows : Grid) (name status time_str : String) :
    Grid × Bool :=
  if already_signed_in_today rows name then (rows, false)
  else
    (appendRow rows
      [CellVal.vStr time_str, CellVal.vStr name, CellVal.vStr status], true)

/-! ### Matrix variant (web_app.py): state and sign-in -/

def LATE_HOUR : Nat := 10

def LATE_MINUTE : Nat := 15

/-- Current Mountain time, as the matrix variant consumes it: the label
`today_col_label()` yields for today, an abstract day number identifying
the current date, and the wall-clock time of day. -/
structure MT where
  dateLabel : String
  date : Nat
  h : Nat
  m : Nat
  sec : Nat
  micro : Nat

/-- Source: the test `now_mt > late_cutoff` in `mark_present`, where
`late_cutoff = now_mt.replace(hour=10, minute=15, second=0,
microsecond=0)`: both datetimes share the date, so the comparison is the
lexicographic time-of-day comparison. -/
def isLate (t : MT) : Bool :=
  decide (LATE_HOUR < t.h) ||
    (decide (t.h = LATE_HOUR) &&
      (decide (LATE_MINUTE < t.m) ||
        (decide (t.m = LATE_MINUTE) &&
          (decide (0 < t.sec) || (decide (t.sec = 0) && decide (0 < t.micro))))))

/-- Source: `get_or_create_attendance_sheet`, existing-sheet branch: if
cell A1 is unset, `ws.append(["FULL NAME"])` (which lands after the
current last row, row 1 only for an empty sheet). -/
def fixAttHeader (g : Grid) : Grid :=
  if getCell g 1 1 = CellVal.vNone then
    appendRow g [CellVal.vStr "FULL NAME"]
  else g

/-- Header row of the Attendance Log sheet. -/
def logHeader : List CellVal :=
  [CellVal.vStr "Timestamp (MT)", CellVal.vStr "Name",
   CellVal.vStr "OfficialStatus", CellVal.vStr "Attendance Date",
   CellVal.vStr "Attendance (P/A)"]

/-- Source: `get_or_create_log_sheet`, existing-sheet branch: if cell A1
is unset, append the header row. -/
def fixLogHeader (g : Grid) : Grid :=
  if getCell g 1 1 = CellVal.vNone then appendRow g logHeader else g

/-- Header-cell test of `ensure_date_column`: the cell is truthy and its
stripped string equals the date label. -/
def isDateCol (g : Grid) (lbl : String) (c : Nat) : Bool :=
  truthy (getCell g 1 c) && decide (pyStrip (cellStr (getCell g 1 c)) = lbl)

/-- Source: `ensure_date_column`: scan header columns 2..max for a truthy
cell stripping to the label; otherwise claim column `max_column + 1`. -/
def ensure_date_column (g : Grid) (lbl : String) : Grid × Nat :=
  match (List.range' 2 (maxCol g - 1)).find? (isDateCol g lbl) with
  | some c => (g, c)
  | none => (setCell g 1 (maxCol g + 1) (CellVal.vStr lbl), maxCol g + 1)

/-- Casefolded stripped name held in column 1 of a row, when truthy — the
key both row scans of the matrix variant compare against. -/
def rowKeyAt (g : Grid) (r : Nat) : Option String :=
  if truthy (getCell g r 1) then
    some (casefold (pyStrip (cellStr (getCell g r 1))))
  else none

/-- Row test of `find_or_create_student_row` and the finalize row scan:
the row's key equals the target key. -/
def isStudentRow (g : Grid) (target : String) (r : Nat) : Bool :=
  decide (rowKeyAt g r = some target)

/-- Source: `find_or_create_student_row`: scan rows 2..max for the
casefolded stripped name; otherwise write the stripped name into column 1
of row `max_row + 1`. -/
def find_or_create_student_row (g : Grid) (name : String) : Grid × Nat :=
  match (List.range' 2 (maxRow g - 1)).find?
      (isStudentRow g (casefold (pyStrip name))) with
  | some r => (g, r)
  | none => (setCell g (maxRow g + 1) 1 (CellVal.vStr (pyStrip name)), maxRow g + 1)

/-- State of the matrix variant's workbook: the three sheets, plus the set
of matrix cells carrying the late highlight (`LATE_FILL`), modelled as the
list of highlighted (row, column) positions. -/
structure WebState where
  students : Grid
  att : Grid
  log : Grid
  fills : List (Nat × Nat)

/-- Source: `mark_present`: resolve today's column and the student's row;
if the cell holds a value whose string strips non-empty, report a
duplicate and stop; otherwise write the time of day, highlight when
strictly after the 10:15 cutoff, and append a `P` log row stamped with the
current datetime.  Returns (state, date label, did_mark); the message is
selected by the boolean. -/
def mark_present (st : WebState) (now : MT) (name status : String) :
    WebState × String × Bool :=
  let lbl := now.dateLabel
  let att0 := fixAttHeader st.att
  let ec := ensure_date_column att0 lbl
  let att1 := ec.1
  let col := ec.2
  let fr := find_or_create_student_row att1 name
  let att2 := fr.1
  let row := fr.2
  let v := getCell att2 row col
  if v ≠ CellVal.vNone ∧ pyStrip (cellStr v) ≠ "" then
    ({ st with att := att2 }, lbl, false)
  else
    let att3 := setCell att2 row col (CellVal.vTime now.h now.m now.sec now.micro)
    let fills1 := if isLate now then (row, col) :: st.fills else st.fills
    let log1 := fixLogHeader st.log
    let log2 := appendRow log1
      [CellVal.vDt now.date now.h now.m now.sec now.micro, CellVal.vStr name,
       CellVal.vStr status, CellVal.vStr lbl, CellVal.vStr "P"]
    ({ students := st.students, att := att3, log := log2, fills := fills1 },
      lbl, true)

/-- Source: `ensure_student_row_in_attendance` (used by the web variant's
add-student). -/
def ensure_student_row_in_attendance (g : Grid) (name : String) : Grid :=
  (find_or_create_student_row (fixAttHeader g) name).1

/-- Source: `add_student_as_unregistered` in `web_app.py`: same registry
logic as the kiosk file, then make the student appear in Attendance. -/
def web_add_student (st : WebState) (name : String) : Bool × WebState :=
  let r := add_student_as_unregistered st.students name
  if r.1 then
    (true, { st with students := r.2,
                     att := ensure_student_row_in_attendance st.att (pyStrip name) })
  else (false, { st with students := r.2 })

/-! ### Matrix variant: finalize -/

/-- Source: the log scan in `finalize_today` building `existing`: a row
contributes `(date, casefolded name)` when both extract non-empty. -/
def pairOfLogRow (row : List CellVal) : Option (String × String) :=
  let nm := if truthy (row.getD 1 CellVal.vNone) then
      casefold (pyStrip (cellStr (row.getD 1 CellVal.vNone)))
    else ""
  let dt := if truthy (row.getD 3 CellVal.vNone) then
      pyStrip (cellStr (row.getD 3 CellVal.vNone))
    else ""
  if nm ≠ "" ∧ dt ≠ "" then some (dt, nm) else none

/-- All `(date, name)` pairs present in the log sheet's data rows (the
Python `set`, as a list used only for membership). -/
def existingSet (log : Grid) : List (String × String) :=
  (log.drop 1).filterMap pairOfLogRow

/-- Python dict assignment `m[k] = v` on an association list. -/
def upsert (m : List (String × Nat)) (k : String) (v : Nat) :
    List (String × Nat) :=
  if (m.find? (fun p => p.1 = k)).isSome then
    m.map (fun p => if p.1 = k then (k, v) else p)
  else m ++ [(k, v)]

/-- Source: the `row_map` scan of `finalize_today`: every row 2..max with
a truthy name, keyed by casefolded stripped name; a later row with the
same key overwrites the earlier (dict assignment). -/
def buildRowMap (g : Grid) : List (String × Nat) :=
  (List.range' 2 (maxRow g - 1)).foldl
    (fun rm r =>
      match rowKeyAt g r with
      | some k => upsert rm k r
      | none => rm)
    []

/-- Source: the ensure-every-student-has-a-row loop of `finalize_today`. -/
def resolveRows (att : Grid) (rm : List (String × Nat))
    (reg : List RegEntry) : Grid × List (String × Nat) :=
  reg.foldl
    (fun acc e =>
      if (acc.2.find? (fun p => p.1 = e.1)).isSome then acc
      else ((find_or_create_student_row acc.1 e.2.1).1,
        upsert acc.2 e.1 (find_or_create_student_row acc.1 e.2.1).2))
    (att, rm)

/-- Source: the present test of the finalize loop: a cell counts as
present when it is set, strips non-empty, and its stripped uppercase is
not `"A"`. -/
def presentCond (v : CellVal) : Bool :=
  v ≠ CellVal.vNone && pyStrip (cellStr v) ≠ "" &&
    upperStr (pyStrip (cellStr v)) ≠ "A"

/-- Hour/minute/second of a cell value carrying a clock time (the Python
`hasattr(val, "hour")` test: `time` and `datetime` objects). -/
def hourOf : CellVal → Option (Nat × Nat × Nat)
  | CellVal.vTime h m sec _ => some (h, m, sec)
  | CellVal.vDt _ h m sec _ => some (h, m, sec)
  | _ => none

/-- Timestamp cell the finalize loop logs for a cell value `v`: for a
present cell holding a clock time, today's date combined with that time
(microsecond zeroed); for a present cell without one, Python's `ts = None`;
for an absent cell, the empty string. -/
def tsCellFor (now : MT) (v : CellVal) : CellVal :=
  if presentCond v then
    match hourOf v with
    | some (h, m, sec) => CellVal.vDt now.date h m sec 0
    | none => CellVal.vNone
  else CellVal.vStr ""

/-- Log row the finalize loop appends for a student whose cell holds `v`. -/
def logRowFor (now : MT) (lbl : String) (e : RegEntry) (v : CellVal) :
    List CellVal :=
  [tsCellFor now v, CellVal.vStr e.2.1, CellVal.vStr e.2.2, CellVal.vStr lbl,
   CellVal.vStr (if presentCond v then "P" else "A")]

/-- Python `row_map[key]` on the association list (every key the loop
reads was put there by the resolve pass, so the default is never hit). -/
def rowOf (rm : List (String × Nat)) (k : String) : Nat :=
  ((rm.find? (fun p => p.1 = k)).map (fun p => p.2)).getD 0

/-- Source: one iteration of the finalize loop over `students.items()`:
read the student's cell in today's column, mark `"A"` when it does not
look present, and append the `P`/`A` log row unless `(date, key)` is
already in `existing`. -/
def finStep (now : MT) (lbl : String) (col : Nat)
    (existing : List (String × String)) (rm : List (String × Nat))
    (acc : Grid × Grid) (e : RegEntry) : Grid × Grid :=
  (if presentCond (getCell acc.1 (rowOf rm e.1) col) then acc.1
   else setCell acc.1 (rowOf rm e.1) col (CellVal.vStr "A"),
   if (lbl, e.1) ∈ existing then acc.2
   else appendRow acc.2 (logRowFor now lbl e (getCell acc.1 (rowOf rm e.1) col)))

/-- Source: `finalize_today`: reload the registry, resolve today's column
and every student's row, collect the existing `(date, name)` log pairs,
then run the fill-and-log loop.  Returns (state, date label). -/
def finalize_today (st : WebState) (now : MT) : WebState × String :=
  let ls := load_students st.students
  let stud1 := ls.1
  let reg := ls.2.1
  let lbl := now.dateLabel
  let att0 := fixAttHeader st.att
  let ec := ensure_date_column att0 lbl
  let att1 := ec.1
  let col := ec.2
  let rm0 := buildRowMap att1
  let rr := resolveRows att1 rm0 reg
  let att2 := rr.1
  let rm := rr.2
  let log1 := fixLogHeader st.log
  let existing := existingSet log1
  let fl := reg.foldl (finStep now lbl col existing rm) (att2, log1)
  ({ students := stud1, att := fl.1, log := fl.2, fills := st.fills }, lbl)

/-- Measure for the daily duplicate-guard claim: number of data rows of a
daily sheet whose name matches a casefolded key. -/
def countMatch (rows : Grid) (target : String) : Nat :=
  ((rows.drop 1).filter (fun row => rowMatches row target)).length

/-- Matrix notion of a non-empty (marked) cell — the test `mark_present`
guards on. -/
def cellMarked (g : Grid) (r c : Nat) : Bool :=
  decide (getCell g r c ≠ CellVal.vNone) &&
    decide (pyStrip (cellStr (getCell g r c)) ≠ "")

/-! Named stages of the `finalize_today` pipeline (its local variables
`students`, `att_ws`/`col` after `ensure_date_column`, and `row_map`
after the resolve pass), so that theorems can speak about them. -/

/-- `students` as reloaded at the top of `finalize_today`. -/
def finReg (st : WebState) : List RegEntry :=
  (load_students st.students).2.1

/-- The attendance grid after `ensure_date_column`. -/
def finAtt1 (st : WebState) (now : MT) : Grid :=
  (ensure_date_column (fixAttHeader st.att) now.dateLabel).1

/-- Today's column as resolved by `ensure_date_column`. -/
def finCol (st : WebState) (now : MT) : Nat :=
  (ensure_date_column (fixAttHeader st.att) now.dateLabel).2

/-- The attendance grid after the ensure-every-student-has-a-row pass. -/
def finAtt2 (st : WebState) (now : MT) : Grid :=
  (resolveRows (finAtt1 st now) (buildRowMap (finAtt1 st now)) (finReg st)).1

/-- `row_map` after the resolve pass. -/
def finRM (st : WebState) (now : MT) : List (String × Nat) :=
  (resolveRows (finAtt1 st now) (buildRowMap (finAtt1 st now)) (finReg st)).2

/-- The matrix row the finalize loop reads for a registry key. -/
def finRow (st : WebState) (now : MT) (k : String) : Nat :=
  rowOf (finRM st now) k

/-- The cell value the finalize loop reads for a registry key (`val`). -/
def finVal (st : WebState) (now : MT) (k : String) : CellVal :=
  getCell (finAtt2 st now) (finRow st now k) (finCol st now)

/-! ### Lemmas: Python string primitives -/

theorem dropWhile_eq_cons_head_false {p : Char → Bool} :
    ∀ {l r : List Char} {c : Char}, l.dropWhile p = c :: r → p c = false := by
  intro l
  induction l with
  | nil => intro r c h; simp at h
  | cons a t ih =>
    intro r c h
    rw [List.dropWhile_cons] at h
    cases hb : p a with
    | true => rw [hb] at h; simp at h; exact ih h
    | false =>
      rw [hb] at h
      simp at h
      exact h.1 ▸ hb

theorem stripList_idem (l : List Char) :
    stripList (stripList l) = stripList l := by
  unfold stripList
  have h1 : List.dropWhile isWS (List.rdropWhile isWS (List.dropWhile isWS l)) =
      List.rdropWhile isWS (List.dropWhile isWS l) := by
    rcases hpre : List.rdropWhile isWS (List.dropWhile isWS l) with _ | ⟨c, t⟩
    · simp
    · have hp : (c :: t) <+: List.dropWhile isWS l := by
        rw [← hpre]; exact List.rdropWhile_prefix _ _
      obtain ⟨s, hs⟩ := hp
      have hc : isWS c = false := dropWhile_eq_cons_head_false hs.symm
      rw [List.dropWhile_cons, if_neg (by simp [hc])]
  rw [h1, List.rdropWhile_idempotent]

theorem stripList_eq_self (l : List Char) (h : ∀ c ∈ l, isWS c = false) :
    stripList l = l := by
  unfold stripList
  have h1 : List.dropWhile isWS l = l := by
    cases l with
    | nil => rfl
    | cons a t =>
      rw [List.dropWhile_cons, if_neg (by simp [h a (by simp)])]
  rw [h1]
  apply List.rdropWhile_eq_self_iff.mpr
  intro hl
  simp [h _ (List.getLast_mem hl)]

theorem pyStrip_data (s : String) : (pyStrip s).data = stripList s.data := rfl

theorem pyStrip_idem (s : String) : pyStrip (pyStrip s) = pyStrip s :=
  congrArg String.mk (stripList_idem s.data)

theorem string_eq_iff_data {s t : String} : s = t ↔ s.data = t.data :=
  ⟨fun h => congrArg String.data h,
   fun h => by cases s; cases t; exact congrArg String.mk h⟩

theorem casefold_eq_empty_iff (s : String) : casefold s = "" ↔ s = "" := by
  constructor
  · intro h
    have := string_eq_iff_data.mp h
    simp only [casefold, List.map_eq_nil_iff] at this
    exact string_eq_iff_data.mpr (by simpa using this)
  · intro h; rw [h]; rfl

/-! ### Lemmas: grids -/

theorem padTo_length {α : Type} (l : List α) (n : Nat) (d : α) :
    (padTo l n d).length = max l.length n := by
  simp [padTo]
  omega

theorem getD_padTo {α : Type} (l : List α) (n : Nat) (d : α) (i : Nat) :
    (padTo l n d).getD i d = l.getD i d := by
  unfold padTo
  rcases lt_or_ge i l.length with h | h
  · rw [List.getD_eq_getElem?_getD, List.getElem?_append_left h,
      ← List.getD_eq_getElem?_getD]
  · rw [List.getD_eq_getElem?_getD, List.getD_eq_getElem?_getD]
    rw [List.getElem?_append_right h]
    rcases lt_or_ge (i - l.length) (n - l.length) with h2 | h2
    · rw [List.getElem?_replicate_of_lt h2]
      rw [List.getElem?_eq_none (by omega)]
      rfl
    · rw [List.getElem?_eq_none (by simpa using h2),
        List.getElem?_eq_none (by omega)]

theorem getD_set_self {α : Type} (l : List α) (i : Nat) (x : α) (d : α)
    (h : i < l.length) : (l.set i x).getD i d = x := by
  rw [List.getD_eq_getElem?_getD, List.getElem?_set_self (by omega)]
  rfl

theorem getD_set_ne {α : Type} (l : List α) (i j : Nat) (x : α) (d : α)
    (h : i ≠ j) : (l.set i x).getD j d = l.getD j d := by
  rw [List.getD_eq_getElem?_getD, List.getElem?_set_ne h,
    ← List.getD_eq_getElem?_getD]

theorem getCell_setCell_same (g : Grid) (r c : Nat) (v : CellVal)
    (hr : 1 ≤ r) (hc : 1 ≤ c) : getCell (setCell g r c v) r c = v := by
  unfold getCell setCell setRow
  have hlen : r - 1 < (padTo g r ([] : List CellVal)).length := by
    rw [padTo_length]; omega
  rw [getD_set_self _ _ _ _ hlen]
  have hlen2 : c - 1 <
      (padTo ((padTo g r ([] : List CellVal)).getD (r-1) []) c CellVal.vNone).length := by
    rw [padTo_length]; omega
  rw [getD_set_self _ _ _ _ hlen2]

theorem getCell_setCell_ne (g : Grid) (r c r' c' : Nat) (v : CellVal)
    (hr : 1 ≤ r) (hc : 1 ≤ c) (hr' : 1 ≤ r') (hc' : 1 ≤ c')
    (hne : r ≠ r' ∨ c ≠ c') :
    getCell (setCell g r c v) r' c' = getCell g r' c' := by
  unfold getCell setCell setRow
  rcases hne with h | h
  · rw [getD_set_ne _ _ _ _ _ (by omega)]
    rw [getD_padTo]
  · rcases eq_or_ne r r' with rfl | hrr
    · have hlen : r - 1 < (padTo g r ([] : List CellVal)).length := by
        rw [padTo_length]; omega
      rw [getD_set_self _ _ _ _ hlen]
      rw [getD_set_ne _ _ _ _ _ (by omega)]
      rw [getD_padTo, getD_padTo]
    · rw [getD_set_ne _ _ _ _ _ (by omega)]
      rw [getD_padTo]

theorem length_setCell (g : Grid) (r c : Nat) (v : CellVal) :
    (setCell g r c v).length = max g.length r := by
  unfold setCell
  rw [List.length_set, padTo_length]

theorem maxRow_setCell (g : Grid) (r c : Nat) (v : CellVal) (hr : 1 ≤ r) :
    maxRow (setCell g r c v) = max (maxRow g) r := by
  unfold maxRow
  rw [length_setCell]
  omega

theorem getCell_appendRow_lt (g : Grid) (row : List CellVal) (r c : Nat)
    (h : r ≤ g.length) (hr : 1 ≤ r) :
    getCell (appendRow g row) r c = getCell g r c := by
  unfold getCell appendRow
  have h2 : (g ++ [row]).getD (r-1) ([] : List CellVal) = g.getD (r-1) [] := by
    rw [List.getD_eq_getElem?_getD,
      List.getElem?_append_left (show r - 1 < g.length by omega),
      ← List.getD_eq_getElem?_getD]
  rw [h2]

theorem getCell_appendRow_last (g : Grid) (row : List CellVal) (c : Nat) :
    getCell (appendRow g row) (g.length + 1) c = row.getD (c-1) CellVal.vNone := by
  unfold getCell appendRow
  have h1 : g.length + 1 - 1 = g.length := by omega
  have h2 : (g ++ [row]).getD g.length ([] : List CellVal) = row := by
    rw [List.getD_eq_getElem?_getD,
      List.getElem?_append_right (le_refl g.length)]
    simp
  rw [h1, h2]

theorem le_maxCol_of_getCell_ne (g : Grid) (c : Nat) (hc : 1 ≤ c)
    (h : getCell g 1 c ≠ CellVal.vNone) : c ≤ maxCol g := by
  unfold getCell at h
  unfold maxCol
  rcases g with _ | ⟨row0, rest⟩
  · exact absurd rfl h
  · have hrow : List.getD (row0 :: rest) (1-1) ([] : List CellVal) = row0 := rfl
    rw [hrow] at h
    have hlen : c - 1 < row0.length := by
      by_contra hcon
      rw [List.getD_eq_getElem?_getD, List.getElem?_eq_none (by omega)] at h
      exact h rfl
    have : row0.length ≤ (row0 :: rest).foldr (fun row acc => max row.length acc) 0 := by
      simp only [List.foldr_cons]
      omega
    omega

theorem maxRow_append (g : Grid) (row : List CellVal) :
    maxRow (appendRow g row) = g.length + 1 := by
  unfold maxRow appendRow
  rw [List.length_append, List.length_singleton]
  omega

/-! ### Shared small lemmas -/

theorem casefold_empty : casefold "" = "" := rfl

theorem casefold_eq_empty_of (s : String) (h : s = "") : casefold s = "" := by
  rw [h]; rfl

/-! ### Claim C10 -/

/-- C10: in the daily-sheet variant, for every name whose trimmed form is
empty, `already_signed_in_today` returns `False` regardless of the sheet's
contents, so `log_attendance` with a blank name appends a new row on every
call. -/
theorem c10_theorem (rows : Grid) (name : String) (h : pyStrip name = "") :
    already_signed_in_today rows name = false ∧
    ∀ (status time_str : String),
      log_attendance rows name status time_str =
        (appendRow rows
          [CellVal.vStr time_str, CellVal.vStr name, CellVal.vStr status],
          true) := by
  have htarget : casefold (pyStrip name) = "" := by rw [h]; decide
  have halready : already_signed_in_today rows name = false := by
    unfold already_signed_in_today
    rw [htarget]
    simp
  refine ⟨halready, fun status time_str => ?_⟩
  unfold log_attendance
  rw [halready]
  simp

/-- Witness for C10 at a concrete blank name and non-trivial sheet. -/
theorem c10_witness :
    already_signed_in_today
      [[CellVal.vStr "Time", CellVal.vStr "Name"],
       [CellVal.vStr "09:00:00", CellVal.vStr " ", CellVal.vStr "Registered"]]
      " " = false ∧
    ∀ (status time_str : String),
      log_attendance
        [[CellVal.vStr "Time", CellVal.vStr "Name"],
         [CellVal.vStr "09:00:00", CellVal.vStr " ", CellVal.vStr "Registered"]]
        " " status time_str =
        (appendRow
          [[CellVal.vStr "Time", CellVal.vStr "Name"],
           [CellVal.vStr "09:00:00", CellVal.vStr " ", CellVal.vStr "Registered"]]
          [CellVal.vStr time_str, CellVal.vStr " ", CellVal.vStr status],
          true) :=
  c10_theorem _ " " (by decide)

/-! ### Claim C7 -/

/-- C7: `canonical_match` trims the input, returns None on empty trimmed
input, and otherwise looks the casefolded trimmed input up in the
registry. -/
theorem c7_theorem (typed : String) (reg : List RegEntry) :
    (pyStrip typed = "" → canonical_match typed reg = none) ∧
    (pyStrip typed ≠ "" →
      canonical_match typed reg = lookupReg reg (casefold (pyStrip typed))) := by
  constructor
  · intro h
    unfold canonical_match
    rw [h]
    simp
  · intro h
    unfold canonical_match
    simp [h]

/-- Witness for C7: a typed name with surrounding whitespace and different
casing matches the registry entry "Jane Doe". -/
theorem c7_witness :
    canonical_match "  jane doe " [("jane doe", "Jane Doe", "Registered")] =
      some ("Jane Doe", "Registered") := by
  rw [(c7_theorem ("  jane doe ") [("jane doe", "Jane Doe", "Registered")]).2
    (by decide)]
  decide

/-! ### Claim C4 -/

/-- C4: `add_student_as_unregistered` trims its input, rejects an empty
trimmed input without touching the store, rejects a case-insensitive
duplicate without appending, and otherwise appends exactly one row whose
status is Unregistered; the web variant shares the registry behaviour and
leaves the other sheets alone on failure. -/
theorem c4_theorem (g : Grid) (input : String) :
    (pyStrip input = "" → add_student_as_unregistered g input = (false, g)) ∧
    (pyStrip input ≠ "" →
      (lookupReg (load_students g).2.1 (casefold (pyStrip input))).isSome →
      add_student_as_unregistered g input = (false, (load_students g).1)) ∧
    (pyStrip input ≠ "" →
      (lookupReg (load_students g).2.1 (casefold (pyStrip input))).isSome = false →
      add_student_as_unregistered g input =
        (true, appendRow (get_or_create_students_sheet (load_students g).1)
          [CellVal.vStr (pyStrip input), CellVal.vStr STATUS_UNREGISTERED])) ∧
    (∀ st : WebState, g = st.students →
      (web_add_student st input).2.students =
        (add_student_as_unregistered g input).2 ∧
      ((add_student_as_unregistered g input).1 = false →
        (web_add_student st input).2.att = st.att ∧
        (web_add_student st input).2.log = st.log)) := by
  refine ⟨?_, ?_, ?_, ?_⟩
  · intro h
    unfold add_student_as_unregistered
    rw [h]
    simp
  · intro h hdup
    unfold add_student_as_unregistered
    simp [h, hdup]
  · intro h hdup
    unfold add_student_as_unregistered
    simp [h, hdup]
  · intro st hst
    subst hst
    unfold web_add_student
    rcases hadd : add_student_as_unregistered st.students input with ⟨ok, g2⟩
    cases ok
    · simp [hadd]
    · simp [hadd]

/-- Witness for C4 at concrete inputs: blank input, duplicate input
("jane doe" against existing "Jane Doe"), and a fresh appended student. -/
theorem c4_witness :
    (add_student_as_unregistered
        [[CellVal.vStr "Name", CellVal.vStr "OfficialStatus"],
         [CellVal.vStr "Jane Doe", CellVal.vStr "Registered"]] "  " =
      (false,
        [[CellVal.vStr "Name", CellVal.vStr "OfficialStatus"],
         [CellVal.vStr "Jane Doe", CellVal.vStr "Registered"]])) ∧
    (add_student_as_unregistered
        [[CellVal.vStr "Name", CellVal.vStr "OfficialStatus"],
         [CellVal.vStr "Jane Doe", CellVal.vStr "Registered"]] "jane doe" =
      (false,
        [[CellVal.vStr "Name", CellVal.vStr "OfficialStatus"],
         [CellVal.vStr "Jane Doe", CellVal.vStr "Registered"]])) ∧
    (add_student_as_unregistered
        [[CellVal.vStr "Name", CellVal.vStr "OfficialStatus"],
         [CellVal.vStr "Jane Doe", CellVal.vStr "Registered"]] " John Roe " =
      (true,
        [[CellVal.vStr "Name", CellVal.vStr "OfficialStatus"],
         [CellVal.vStr "Jane Doe", CellVal.vStr "Registered"],
         [CellVal.vStr "John Roe", CellVal.vStr "Unregistered"]])) := by
  refine ⟨(c4_theorem _ "  ").1 (by decide), ?_, ?_⟩
  · have h := (c4_theorem
      [[CellVal.vStr "Name", CellVal.vStr "OfficialStatus"],
       [CellVal.vStr "Jane Doe", CellVal.vStr "Registered"]] "jane doe").2.1
      (by decide) (by decide)
    rw [h]
    decide
  · have h := (c4_theorem
      [[CellVal.vStr "Name", CellVal.vStr "OfficialStatus"],
       [CellVal.vStr "Jane Doe", CellVal.vStr "Registered"]] " John Roe ").2.2.1
      (by decide) (by decide)
    rw [h]
    decide

/-! ### Claim C9 -/

theorem migrate_fold_cells (rs : List Nat) :
    ∀ (g2 : Grid), rs.Nodup → (∀ r ∈ rs, 2 ≤ r) →
    (∀ r c, 1 ≤ r → 1 ≤ c → (r ∉ rs ∨ c ≠ 2) →
      getCell (rs.foldl
        (fun gr r =>
          if truthy (getCell gr r 1) ∧ ¬ truthy (getCell gr r 2) then
            setCell gr r 2 (CellVal.vStr STATUS_REGISTERED)
          else gr) g2) r c = getCell g2 r c) ∧
    (∀ r ∈ rs,
      (truthy (getCell g2 r 1) ∧ ¬ truthy (getCell g2 r 2) →
        getCell (rs.foldl
          (fun gr r =>
            if truthy (getCell gr r 1) ∧ ¬ truthy (getCell gr r 2) then
              setCell gr r 2 (CellVal.vStr STATUS_REGISTERED)
            else gr) g2) r 2 = CellVal.vStr STATUS_REGISTERED) ∧
      (¬(truthy (getCell g2 r 1) ∧ ¬ truthy (getCell g2 r 2)) →
        getCell (rs.foldl
          (fun gr r =>
            if truthy (getCell gr r 1) ∧ ¬ truthy (getCell gr r 2) then
              setCell gr r 2 (CellVal.vStr STATUS_REGISTERED)
            else gr) g2) r 2 = getCell g2 r 2)) := by
  induction rs with
  | nil => intro g2 _ _; exact ⟨fun r c _ _ _ => rfl, fun r hr => absurd hr (by simp)⟩
  | cons r0 rest ih =>
    intro g2 hnd hpos
    have hr0 : 2 ≤ r0 := hpos r0 (by simp)
    have hnd' : rest.Nodup := (List.nodup_cons.mp hnd).2
    have hr0nm : r0 ∉ rest := (List.nodup_cons.mp hnd).1
    have hpos' : ∀ r ∈ rest, 2 ≤ r := fun r hr => hpos r (by simp [hr])
    set g3 := if truthy (getCell g2 r0 1) ∧ ¬ truthy (getCell g2 r0 2) then
        setCell g2 r0 2 (CellVal.vStr STATUS_REGISTERED)
      else g2 with hg3
    have hread : ∀ r c, 1 ≤ r → 1 ≤ c → (r ≠ r0 ∨ c ≠ 2) →
        getCell g3 r c = getCell g2 r c := by
      intro r c hr hc hne
      rw [hg3]
      split
      · exact getCell_setCell_ne g2 r0 2 r c _ (by omega) (by omega) hr hc
          (by tauto)
      · rfl
    obtain ⟨ihA, ihB⟩ := ih g3 hnd' hpos'
    have hfold : (r0 :: rest).foldl
        (fun gr r =>
          if truthy (getCell gr r 1) ∧ ¬ truthy (getCell gr r 2) then
            setCell gr r 2 (CellVal.vStr STATUS_REGISTERED)
          else gr) g2 = rest.foldl
        (fun gr r =>
          if truthy (getCell gr r 1) ∧ ¬ truthy (getCell gr r 2) then
            setCell gr r 2 (CellVal.vStr STATUS_REGISTERED)
          else gr) g3 := by
      rw [List.foldl_cons]
    constructor
    · intro r c hr hc hne
      rw [hfold]
      have hne' : r ∉ rest ∨ c ≠ 2 := by
        rcases hne with h | h
        · left; intro hmem; exact h (by simp [hmem])
        · right; exact h
      rw [ihA r c hr hc hne']
      apply hread r c hr hc
      rcases hne with h | h
      · left; intro he; exact h (by simp [he])
      · right; exact h
    · intro r hrmem
      rcases List.mem_cons.mp hrmem with rfl | hrrest
      · -- the head row: its cell is decided by the first step and preserved
        constructor
        · intro hcond
          rw [hfold, ihA r 2 (by omega) (by omega) (Or.inl hr0nm)]
          rw [hg3, if_pos hcond]
          exact getCell_setCell_same g2 r 2 _ (by omega) (by omega)
        · intro hcond
          rw [hfold, ihA r 2 (by omega) (by omega) (Or.inl hr0nm)]
          rw [hg3, if_neg hcond]
      · have hrr : 2 ≤ r := hpos' r hrrest
        have hrne : r ≠ r0 := fun he => hr0nm (he ▸ hrrest)
        have h1 : getCell g3 r 1 = getCell g2 r 1 :=
          hread r 1 (by omega) (by omega) (Or.inl hrne)
        have h2 : getCell g3 r 2 = getCell g2 r 2 :=
          hread r 2 (by omega) (by omega) (Or.inl hrne)
        obtain ⟨hB1, hB2⟩ := ihB r hrrest
        constructor
        · intro hcond
          rw [hfold]
          exact hB1 (by rw [h1, h2]; exact hcond)
        · intro hcond
          rw [hfold, hB2 (by rw [h1, h2]; exact hcond), h2]


theorem migrateHeader_cell_lo (g : Grid) (r c : Nat) (hr : 2 ≤ r) (hc : 1 ≤ c) :
    getCell (migrateHeader g) r c = getCell g r c := by
  unfold migrateHeader
  rw [getCell_setCell_ne _ 1 2 r c _ (by omega) (by omega) (by omega) hc
      (Or.inl (by omega)),
    getCell_setCell_ne _ 1 1 r c _ (by omega) (by omega) (by omega) hc
      (Or.inl (by omega))]

theorem migrateHeader_a1 (g : Grid) :
    getCell (migrateHeader g) 1 1 = CellVal.vStr "Name" := by
  unfold migrateHeader
  rw [getCell_setCell_ne _ 1 2 1 1 _ (by omega) (by omega) (by omega) (by omega)
    (Or.inr (by omega))]
  exact getCell_setCell_same g 1 1 _ (by omega) (by omega)

theorem migrateHeader_b1 (g : Grid) :
    getCell (migrateHeader g) 1 2 = CellVal.vStr "OfficialStatus" :=
  getCell_setCell_same _ 1 2 _ (by omega) (by omega)

theorem migrateHeader_maxRow (g : Grid) :
    maxRow (migrateHeader g) = maxRow g := by
  unfold migrateHeader
  rw [maxRow_setCell _ _ _ _ (by omega), maxRow_setCell _ _ _ _ (by omega)]
  have h1 : 1 ≤ maxRow g := by unfold maxRow; omega
  omega

/-- C9: when the Students sheet has the legacy header shape, opening it
migrates it in place — header cell 1 becomes "Name", header cell 2 becomes
"OfficialStatus", every data row with a truthy name and no truthy status
gets status Registered, all other cells are untouched; a sheet already in
the Name/OfficialStatus two-column shape is returned unchanged. -/
theorem c9_theorem (g : Grid) :
    (legacyShape g →
      getCell (get_or_create_students_sheet g) 1 1 = CellVal.vStr "Name" ∧
      getCell (get_or_create_students_sheet g) 1 2 = CellVal.vStr "OfficialStatus" ∧
      (∀ r, 2 ≤ r →
        getCell (get_or_create_students_sheet g) r 1 = getCell g r 1 ∧
        (truthy (getCell g r 1) ∧ ¬ truthy (getCell g r 2) → r ≤ maxRow g →
          getCell (get_or_create_students_sheet g) r 2 =
            CellVal.vStr STATUS_REGISTERED) ∧
        (¬ (truthy (getCell g r 1) ∧ ¬ truthy (getCell g r 2)) →
          getCell (get_or_create_students_sheet g) r 2 = getCell g r 2))) ∧
    ((getCell g 1 1 = CellVal.vStr "Name" ∧
        (if 2 ≤ maxCol g then getCell g 1 2 else CellVal.vNone) ≠ CellVal.vNone) →
      get_or_create_students_sheet g = g) := by
  constructor
  · intro hleg
    have hgoc : get_or_create_students_sheet g = migrateStudents g := by
      unfold get_or_create_students_sheet
      rw [if_pos hleg]
    rw [hgoc]
    have hnd : (List.range' 2 (maxRow (migrateHeader g) - 1)).Nodup :=
      List.nodup_range' 2 (maxRow (migrateHeader g) - 1)
    have hpos : ∀ r ∈ List.range' 2 (maxRow (migrateHeader g) - 1), 2 ≤ r :=
      fun r hr => (List.mem_range'_1.mp hr).1
    obtain ⟨hA, hB⟩ := migrate_fold_cells
      (List.range' 2 (maxRow (migrateHeader g) - 1)) (migrateHeader g) hnd hpos
    have hmS : migrateStudents g =
        (List.range' 2 (maxRow (migrateHeader g) - 1)).foldl
          (fun gr r =>
            if truthy (getCell gr r 1) ∧ ¬ truthy (getCell gr r 2) then
              setCell gr r 2 (CellVal.vStr STATUS_REGISTERED)
            else gr)
          (migrateHeader g) := rfl
    have hone : (1 : Nat) ∉ List.range' 2 (maxRow (migrateHeader g) - 1) := by
      intro hmem
      exact absurd (hpos 1 hmem) (by omega)
    refine ⟨?_, ?_, ?_⟩
    · rw [hmS, hA 1 1 (by omega) (by omega) (Or.inr (by omega)), migrateHeader_a1]
    · rw [hmS, hA 1 2 (by omega) (by omega) (Or.inl hone), migrateHeader_b1]
    · intro r hr
      have h1 : getCell (migrateHeader g) r 1 = getCell g r 1 :=
        migrateHeader_cell_lo g r 1 hr (by omega)
      have h2 : getCell (migrateHeader g) r 2 = getCell g r 2 :=
        migrateHeader_cell_lo g r 2 hr (by omega)
      refine ⟨?_, ?_, ?_⟩
      · rw [hmS, hA r 1 (by omega) (by omega) (Or.inr (by omega)), h1]
      · intro hcond hle
        have hmem : r ∈ List.range' 2 (maxRow (migrateHeader g) - 1) := by
          apply List.mem_range'_1.mpr
          refine ⟨hr, ?_⟩
          rw [migrateHeader_maxRow]
          have hm1 : 1 ≤ maxRow g := by unfold maxRow; omega
          omega
        have hcond' : truthy (getCell (migrateHeader g) r 1) = true ∧
            ¬ truthy (getCell (migrateHeader g) r 2) = true := by
          rw [h1, h2]; exact hcond
        rw [hmS]
        exact (hB r hmem).1 hcond'
      · intro hcond
        by_cases hmem : r ∈ List.range' 2 (maxRow (migrateHeader g) - 1)
        · have hcond' : ¬ (truthy (getCell (migrateHeader g) r 1) = true ∧
              ¬ truthy (getCell (migrateHeader g) r 2) = true) := by
            rw [h1, h2]; exact hcond
          rw [hmS]
          rw [(hB r hmem).2 hcond', h2]
        · rw [hmS, hA r 2 (by omega) (by omega) (Or.inl hmem), h2]
  · intro hok
    unfold get_or_create_students_sheet
    rw [if_neg]
    intro hleg
    rcases hleg with h | h
    · rw [hok.1] at h
      exact absurd (CellVal.vStr.injEq _ _ ▸ congrArg id h) (by simp at h ⊢)
    · exact hok.2 h.2

/-- Witness for C9: a one-column legacy sheet gains the status column with
Registered backfill, and a proper two-column sheet is left unchanged. -/
theorem c9_witness :
    (getCell (get_or_create_students_sheet
        [[CellVal.vStr "Registered Student Name"], [CellVal.vStr "Jane Doe"]])
      1 2 = CellVal.vStr "OfficialStatus" ∧
     getCell (get_or_create_students_sheet
        [[CellVal.vStr "Registered Student Name"], [CellVal.vStr "Jane Doe"]])
      2 2 = CellVal.vStr STATUS_REGISTERED) ∧
    get_or_create_students_sheet
        [[CellVal.vStr "Name", CellVal.vStr "OfficialStatus"],
         [CellVal.vStr "Jane Doe", CellVal.vStr "Registered"]] =
      [[CellVal.vStr "Name", CellVal.vStr "OfficialStatus"],
       [CellVal.vStr "Jane Doe", CellVal.vStr "Registered"]] := by
  have h1 := (c9_theorem
    [[CellVal.vStr "Registered Student Name"], [CellVal.vStr "Jane Doe"]]).1
    (by left; decide)
  have h2 := (c9_theorem
    [[CellVal.vStr "Name", CellVal.vStr "OfficialStatus"],
     [CellVal.vStr "Jane Doe", CellVal.vStr "Registered"]]).2
    ⟨by decide, by decide⟩
  refine ⟨⟨h1.2.1, ?_⟩, h2⟩
  exact (h1.2.2 2 (by omega)).2.1 (by decide) (by decide)

/-! ### Claim C5 -/

theorem orElse_none_right {α : Type} (o : Option α) :
    (o.orElse (fun _ => none)) = o := by cases o <;> rfl

theorem orElse_of_isSome {α : Type} (o : Option α) (f : Unit → Option α)
    (h : o.isSome) : o.orElse f = o := by
  cases o
  · simp at h
  · rfl

theorem load_fold_lookup (rows : List (List CellVal)) :
    ∀ (acc : List RegEntry × List String) (k : String),
      (rows.foldl loadStep acc).1.find? (fun e => e.1 = k) =
        (acc.1.find? (fun e => e.1 = k)).or
          (((rows.filterMap rowEntry).find?
            (fun p => casefold p.1 = k)).map
              (fun p => (casefold p.1, p.1, p.2))) := by
  induction rows with
  | nil =>
    intro acc k
    rw [List.foldl_nil, List.filterMap_nil, List.find?_nil]
    exact Option.or_none.symm
  | cons row rest ih =>
    intro acc k
    rw [List.foldl_cons]
    rcases hrow : rowEntry row with _ | ⟨name, status⟩
    · have hstep : loadStep acc row = acc := by unfold loadStep; rw [hrow]
      rw [hstep, ih acc k, List.filterMap_cons_none hrow]
    · have hfm : (row :: rest).filterMap rowEntry =
          (name, status) :: rest.filterMap rowEntry :=
        List.filterMap_cons_some hrow
      by_cases hdup : (acc.1.find? (fun e => e.1 = casefold name)).isSome
      · have hstep : loadStep acc row = acc := by
          unfold loadStep
          rw [hrow]
          simp only [hdup, if_true]
        rw [hstep, ih acc k, hfm]
        by_cases hk : casefold name = k
        · subst hk
          obtain ⟨e, he⟩ := Option.isSome_iff_exists.mp hdup
          rw [he, Option.or_some, Option.or_some]
        · rw [List.find?_cons_of_neg _ (by simp [hk])]
      · have hstep : loadStep acc row =
            (acc.1 ++ [(casefold name, name, status)], acc.2 ++ [name]) := by
          unfold loadStep
          rw [hrow]
          simp [hdup]
        rw [hstep, ih _ k, hfm, List.find?_append]
        by_cases hk : casefold name = k
        · subst hk
          have hnone : acc.1.find? (fun e => e.1 = casefold name) = none :=
            Option.not_isSome_iff_eq_none.mp hdup
          rw [hnone, Option.none_or, Option.none_or,
            List.find?_cons_of_pos _ (by simp),
            List.find?_cons_of_pos _ (by simp)]
          rfl
        · rw [List.find?_cons_of_neg _ (by simp [hk]),
            List.find?_cons_of_neg _ (by simp [fun h => hk h]), List.find?_nil,
            Option.or_none]

theorem load_fold_inv (rows : List (List CellVal)) :
    ∀ (acc : List RegEntry × List String),
      acc.2 = acc.1.map (fun e => e.2.1) →
      (acc.1.map (fun e => e.1)).Nodup →
      (rows.foldl loadStep acc).2 =
        (rows.foldl loadStep acc).1.map (fun e => e.2.1) ∧
      ((rows.foldl loadStep acc).1.map (fun e => e.1)).Nodup := by
  induction rows with
  | nil => intro acc h1 h2; exact ⟨h1, h2⟩
  | cons row rest ih =>
    intro acc h1 h2
    rw [List.foldl_cons]
    rcases hrow : rowEntry row with _ | ⟨name, status⟩
    · have hstep : loadStep acc row = acc := by unfold loadStep; rw [hrow]
      rw [hstep]
      exact ih acc h1 h2
    · by_cases hdup : (acc.1.find? (fun e => e.1 = casefold name)).isSome
      · have hstep : loadStep acc row = acc := by
          unfold loadStep
          rw [hrow]
          simp only [hdup, if_true]
        rw [hstep]
        exact ih acc h1 h2
      · have hstep : loadStep acc row =
            (acc.1 ++ [(casefold name, name, status)], acc.2 ++ [name]) := by
          unfold loadStep
          rw [hrow]
          simp [hdup]
        rw [hstep]
        apply ih
        · rw [List.map_append, h1]
          rfl
        · rw [List.map_append]
          have hnone : acc.1.find? (fun e => e.1 = casefold name) = none :=
            Option.not_isSome_iff_eq_none.mp hdup
          have hnotin : casefold name ∉ acc.1.map (fun e => e.1) := by
            intro hmem
            obtain ⟨e, hemem, heq⟩ := List.mem_map.mp hmem
            have := List.find?_eq_none.mp hnone e hemem
            simp [heq] at this
          simp only [List.nodup_append, List.map_cons, List.map_nil]
          exact ⟨h2, List.nodup_singleton _, by
            intro a ha hb
            simp at hb
            exact hnotin (hb ▸ ha)⟩

/-- C5: loading the Students sheet produces a registry with pairwise
distinct casefold keys (first occurrence wins — the map holds exactly the
first data row whose processed name casefolds to each key, with a blank
status defaulted to Unregistered by that processing), and a name list that
is exactly the official spellings of those first occurrences in sheet
order. -/
theorem c5_theorem (rows : List (List CellVal)) :
    ((load_students_entries rows).1.map (fun e => e.1)).Nodup ∧
    (load_students_entries rows).2 =
      (load_students_entries rows).1.map (fun e => e.2.1) ∧
    (∀ k, lookupReg (load_students_entries rows).1 k =
      (rows.filterMap rowEntry).find? (fun p => casefold p.1 = k)) ∧
    (∀ row ∈ rows, truthy (row.getD 0 CellVal.vNone) →
      ¬ truthy (row.getD 1 CellVal.vNone) →
      rowEntry row =
        some (pyStrip (cellStr (row.getD 0 CellVal.vNone)), STATUS_UNREGISTERED)) := by
  obtain ⟨hnames, hnodup⟩ := load_fold_inv rows ([], []) rfl List.nodup_nil
  refine ⟨hnodup, hnames, ?_, ?_⟩
  · intro k
    unfold lookupReg load_students_entries
    rw [load_fold_lookup rows ([], []) k]
    rw [List.find?_nil, Option.none_or]
    cases hfe : (rows.filterMap rowEntry).find? (fun p => casefold p.1 = k) with
    | none => rfl
    | some p => rfl
  · intro row _ htr hst
    unfold rowEntry
    rw [if_pos htr, if_neg hst]

/-- Witness for C5 on a concrete sheet: a duplicate "JANE DOE" row is
dropped (first occurrence wins), a blank status defaults to Unregistered,
and the name list is the official spellings in sheet order. -/
theorem c5_witness :
    ((load_students_entries
        [[CellVal.vStr "Jane Doe", CellVal.vStr "Registered"],
         [CellVal.vStr "JANE DOE", CellVal.vStr "Unregistered"],
         [CellVal.vStr " Bob Lee "]]).1.map (fun e => e.1)).Nodup ∧
    lookupReg (load_students_entries
        [[CellVal.vStr "Jane Doe", CellVal.vStr "Registered"],
         [CellVal.vStr "JANE DOE", CellVal.vStr "Unregistered"],
         [CellVal.vStr " Bob Lee "]]).1 "jane doe" =
      some ("Jane Doe", "Registered") ∧
    lookupReg (load_students_entries
        [[CellVal.vStr "Jane Doe", CellVal.vStr "Registered"],
         [CellVal.vStr "JANE DOE", CellVal.vStr "Unregistered"],
         [CellVal.vStr " Bob Lee "]]).1 "bob lee" =
      some ("Bob Lee", "Unregistered") := by
  have h := c5_theorem
    [[CellVal.vStr "Jane Doe", CellVal.vStr "Registered"],
     [CellVal.vStr "JANE DOE", CellVal.vStr "Unregistered"],
     [CellVal.vStr " Bob Lee "]]
  refine ⟨h.1, ?_, ?_⟩
  · rw [h.2.2.1 "jane doe"]
    decide
  · rw [h.2.2.1 "bob lee"]
    decide

/-! ### Claim C8 -/

theorem ensure_col_ge_two (g : Grid) (lbl : String) :
    2 ≤ (ensure_date_column g lbl).2 := by
  unfold ensure_date_column
  cases hf : (List.range' 2 (maxCol g - 1)).find? (isDateCol g lbl) with
  | some c =>
    have hmem := List.mem_of_find?_eq_some hf
    exact (List.mem_range'_1.mp hmem).1
  | none =>
    have h1 : 1 ≤ maxCol g := by unfold maxCol; omega
    simp only
    omega

theorem row_ge_two (g : Grid) (name : String) :
    2 ≤ (find_or_create_student_row g name).2 := by
  unfold find_or_create_student_row
  cases hf : (List.range' 2 (maxRow g - 1)).find?
      (isStudentRow g (casefold (pyStrip name))) with
  | some r =>
    have hmem := List.mem_of_find?_eq_some hf
    exact (List.mem_range'_1.mp hmem).1
  | none =>
    have h1 : 1 ≤ maxRow g := by unfold maxRow; omega
    simp only
    omega

theorem isLate_iff (t : MT) :
    isLate t = true ↔
      (10 < t.h ∨ (t.h = 10 ∧ (15 < t.m ∨ (t.m = 15 ∧
        (0 < t.sec ∨ (t.sec = 0 ∧ 0 < t.micro)))))) := by
  unfold isLate LATE_HOUR LATE_MINUTE
  simp [Bool.or_eq_true, Bool.and_eq_true, decide_eq_true_eq]

/-- C8: a successful `mark_present` writes the time of day into the
resolved (row, column) cell and applies the late highlight to exactly that
cell if and only if the sign-in time is strictly after the 10:15:00 cutoff
on the current date; at or before the cutoff the highlight set is left
unchanged. -/
theorem c8_theorem (st : WebState) (now : MT) (name status : String)
    (hok : (mark_present st now name status).2.2 = true) :
    getCell (mark_present st now name status).1.att
        (find_or_create_student_row
          (ensure_date_column (fixAttHeader st.att) now.dateLabel).1 name).2
        (ensure_date_column (fixAttHeader st.att) now.dateLabel).2 =
      CellVal.vTime now.h now.m now.sec now.micro ∧
    ((10 < now.h ∨ (now.h = 10 ∧ (15 < now.m ∨ (now.m = 15 ∧
        (0 < now.sec ∨ (now.sec = 0 ∧ 0 < now.micro)))))) →
      (mark_present st now name status).1.fills =
        ((find_or_create_student_row
            (ensure_date_column (fixAttHeader st.att) now.dateLabel).1 name).2,
          (ensure_date_column (fixAttHeader st.att) now.dateLabel).2) ::
          st.fills) ∧
    (¬ (10 < now.h ∨ (now.h = 10 ∧ (15 < now.m ∨ (now.m = 15 ∧
        (0 < now.sec ∨ (now.sec = 0 ∧ 0 < now.micro)))))) →
      (mark_present st now name status).1.fills = st.fills) := by
  set att1 := (ensure_date_column (fixAttHeader st.att) now.dateLabel).1 with hatt1
  set col := (ensure_date_column (fixAttHeader st.att) now.dateLabel).2 with hcol
  set row := (find_or_create_student_row att1 name).2 with hrow
  set att2 := (find_or_create_student_row att1 name).1 with hatt2
  by_cases hcond : getCell att2 row col ≠ CellVal.vNone ∧
      pyStrip (cellStr (getCell att2 row col)) ≠ ""
  · exfalso
    have : (mark_present st now name status).2.2 = false := by
      simp only [mark_present]
      rw [← hatt1, ← hcol, ← hatt2, ← hrow, if_pos hcond]
    rw [this] at hok
    exact Bool.false_ne_true hok
  · have hmark : mark_present st now name status =
        ({ students := st.students,
           att := setCell att2 row col (CellVal.vTime now.h now.m now.sec now.micro),
           log := appendRow (fixLogHeader st.log)
             [CellVal.vDt now.date now.h now.m now.sec now.micro, CellVal.vStr name,
              CellVal.vStr status, CellVal.vStr now.dateLabel, CellVal.vStr "P"],
           fills := if isLate now then (row, col) :: st.fills else st.fills },
          now.dateLabel, true) := by
      simp only [mark_present]
      rw [← hatt1, ← hcol, ← hatt2, ← hrow, if_neg hcond]
    have hr2 : 2 ≤ row := hrow ▸ row_ge_two att1 name
    have hc2 : 2 ≤ col := hcol ▸ ensure_col_ge_two (fixAttHeader st.att) now.dateLabel
    refine ⟨?_, ?_, ?_⟩
    · rw [hmark]
      exact getCell_setCell_same att2 row col _ (by omega) (by omega)
    · intro hlate
      rw [hmark]
      simp only
      rw [if_pos ((isLate_iff now).mpr hlate)]
    · intro hlate
      rw [hmark]
      simp only
      rw [if_neg (fun hl => hlate ((isLate_iff now).mp hl))]

/-- Witness for C8: a 10:16 sign-in on an empty attendance sheet gets the
late highlight; a 10:15:00 sign-in does not. -/
theorem c8_witness :
    ((mark_present ⟨[], [], [], []⟩ ⟨"13-Sep", 0, 10, 16, 0, 0⟩
        "Jane Doe" "Registered").1.fills = [(2, 2)]) ∧
    ((mark_present ⟨[], [], [], []⟩ ⟨"13-Sep", 0, 10, 15, 0, 0⟩
        "Jane Doe" "Registered").1.fills = []) := by
  constructor
  · have h := (c8_theorem ⟨[], [], [], []⟩ ⟨"13-Sep", 0, 10, 16, 0, 0⟩
      "Jane Doe" "Registered" (by decide)).2.1 (by decide)
    rw [h]
    decide
  · exact (c8_theorem ⟨[], [], [], []⟩ ⟨"13-Sep", 0, 10, 15, 0, 0⟩
      "Jane Doe" "Registered" (by decide)).2.2 (by decide)

/-! ### Claim C6 -/

theorem char_eq_of_toNat_eq {a b : Char} (h : a.toNat = b.toNat) : a = b := by
  apply Char.eq_of_val_eq
  unfold Char.toNat at h
  exact UInt32.toNat.inj h

theorem strLtb_irrefl : ∀ a : List Char, strLtb a a = false := by
  intro a
  induction a with
  | nil => rfl
  | cons c t ih => simp [strLtb, ih]

theorem strLtb_asymm : ∀ a b : List Char,
    strLtb a b = true → strLtb b a = false := by
  intro a
  induction a with
  | nil =>
    intro b h
    cases b with
    | nil => rfl
    | cons c t => rfl
  | cons c t ih =>
    intro b h
    cases b with
    | nil => simp [strLtb] at h
    | cons d u =>
      simp only [strLtb] at h ⊢
      rcases Nat.lt_trichotomy c.toNat d.toNat with hlt | heq | hgt
      · rw [if_neg (by omega), if_pos hlt]
      · rw [if_neg (by omega), if_neg (by omega)] at h ⊢
        exact ih u h
      · rw [if_neg (by omega), if_pos hgt] at h
        exact absurd h (by simp)

theorem strLtb_trichot : ∀ a b : List Char,
    strLtb a b = true ∨ strLtb b a = true ∨ a = b := by
  intro a
  induction a with
  | nil =>
    intro b
    cases b with
    | nil => right; right; rfl
    | cons d u => left; rfl
  | cons c t ih =>
    intro b
    cases b with
    | nil => right; left; rfl
    | cons d u =>
      rcases Nat.lt_trichotomy c.toNat d.toNat with hlt | heq | hgt
      · left; simp [strLtb, hlt]
      · have hc : c = d := char_eq_of_toNat_eq heq
        subst hc
        rcases ih u with h | h | h
        · left; simp [strLtb, h]
        · right; left; simp [strLtb, h]
        · right; right; rw [h]
      · right; left; simp [strLtb, hgt]

theorem strLtb_trans : ∀ a b c : List Char,
    strLtb a b = true → strLtb b c = true → strLtb a c = true := by
  intro a
  induction a with
  | nil =>
    intro b c hab hbc
    cases c with
    | nil =>
      cases b with
      | nil => exact hab
      | cons d u => simp [strLtb] at hbc
    | cons e v => rfl
  | cons x t ih =>
    intro b c hab hbc
    cases b with
    | nil => simp [strLtb] at hab
    | cons y u =>
      cases c with
      | nil => simp [strLtb] at hbc
      | cons z v =>
        simp only [strLtb] at hab hbc ⊢
        rcases Nat.lt_trichotomy x.toNat y.toNat with h1 | h1 | h1
        · rcases Nat.lt_trichotomy y.toNat z.toNat with h2 | h2 | h2
          · rw [if_pos (by omega)]
          · rw [if_pos (by omega)]
          · rw [if_neg (by omega), if_pos h2] at hbc
            exact absurd hbc (by simp)
        · rw [if_neg (by omega), if_neg (by omega)] at hab
          rcases Nat.lt_trichotomy y.toNat z.toNat with h2 | h2 | h2
          · rw [if_pos (by omega)]
          · rw [if_neg (by omega), if_neg (by omega)] at hbc
            rw [if_neg (by omega), if_neg (by omega)]
            exact ih u v hab hbc
          · rw [if_neg (by omega), if_pos h2] at hbc
            exact absurd hbc (by simp)
        · rw [if_neg (by omega), if_pos h1] at hab
          exact absurd hab (by simp)

theorem mem_insertBy {α : Type} (le : α → α → Bool) (x : α) :
    ∀ (l : List α) (a : α), a ∈ insertBy le x l ↔ a = x ∨ a ∈ l := by
  intro l
  induction l with
  | nil => intro a; simp [insertBy]
  | cons y ys ih =>
    intro a
    unfold insertBy
    by_cases h : le x y = true
    · rw [if_pos h]
      simp [or_comm, or_assoc, or_left_comm]
    · rw [if_neg h]
      simp only [List.mem_cons, ih a]
      tauto

theorem mem_sortBy {α : Type} (le : α → α → Bool) :
    ∀ (l : List α) (a : α), a ∈ sortBy le l ↔ a ∈ l := by
  intro l
  induction l with
  | nil => intro a; rfl
  | cons y ys ih =>
    intro a
    unfold sortBy
    rw [mem_insertBy, ih]
    simp

theorem pairwise_insertBy {α : Type} (le : α → α → Bool) (P : α → Prop)
    (htot : ∀ a b, P a → P b → le a b = true ∨ le b a = true)
    (htrans : ∀ a b c, P a → P b → P c →
      le a b = true → le b c = true → le a c = true)
    (x : α) (hx : P x) :
    ∀ (l : List α), (∀ a ∈ l, P a) →
      l.Pairwise (fun a b => le a b = true) →
      (insertBy le x l).Pairwise (fun a b => le a b = true) := by
  intro l
  induction l with
  | nil => intro _ _; simp [insertBy]
  | cons y ys ih =>
    intro hP hpw
    have hPy : P y := hP y (by simp)
    have hPys : ∀ a ∈ ys, P a := fun a ha => hP a (by simp [ha])
    obtain ⟨hy_ys, hpw_ys⟩ := List.pairwise_cons.mp hpw
    unfold insertBy
    by_cases h : le x y = true
    · rw [if_pos h]
      apply List.pairwise_cons.mpr
      refine ⟨?_, hpw⟩
      intro b hb
      rcases List.mem_cons.mp hb with rfl | hbys
      · exact h
      · exact htrans x y b hx hPy (hPys b hbys) h (hy_ys b hbys)
    · rw [if_neg h]
      apply List.pairwise_cons.mpr
      constructor
      · intro b hb
        rcases (mem_insertBy le x ys b).mp hb with hbx | hbys
        · rcases htot x y hx hPy with h1 | h1
          · exact absurd h1 h
          · rw [hbx]
            exact h1
        · exact hy_ys b hbys
      · exact ih hPys hpw_ys

theorem pairwise_sortBy {α : Type} (le : α → α → Bool) (P : α → Prop)
    (htot : ∀ a b, P a → P b → le a b = true ∨ le b a = true)
    (htrans : ∀ a b c, P a → P b → P c →
      le a b = true → le b c = true → le a c = true) :
    ∀ (l : List α), (∀ a ∈ l, P a) →
      (sortBy le l).Pairwise (fun a b => le a b = true) := by
  intro l
  induction l with
  | nil => intro _; exact List.Pairwise.nil
  | cons y ys ih =>
    intro hP
    unfold sortBy
    apply pairwise_insertBy le P htot htrans y (hP y (by simp))
    · intro a ha
      exact hP a (by simp [(mem_sortBy le ys a).mp ha])
    · exact ih (fun a ha => hP a (by simp [ha]))

theorem strLtb_not_trans {a b c : List Char} (h1 : strLtb a b = false)
    (h2 : strLtb b c = false) : strLtb a c = false := by
  by_contra hcon
  have hac : strLtb a c = true := by
    cases hx : strLtb a c
    · exact absurd hx hcon
    · rfl
  rcases strLtb_trichot a b with h | h | h
  · rw [h] at h1; exact absurd h1 (by simp)
  · have := strLtb_trans b a c h hac
    rw [this] at h2
    exact absurd h2 (by simp)
  · subst h
    rw [hac] at h2
    exact absurd h2 (by simp)

theorem buildMap_fold_inv (names : List String) :
    ∀ (l : List String) (m : List (String × String)),
      (∀ x ∈ l, x ∈ names) →
      (∀ p ∈ m, p.1 = casefold p.2 ∧ p.2 ∈ names) →
      ((m.map (fun p => p.1)).Nodup) →
      (∀ p ∈ l.foldl buildStep m, p.1 = casefold p.2 ∧ p.2 ∈ names) ∧
      ((l.foldl buildStep m).map (fun p => p.1)).Nodup := by
  intro l
  induction l with
  | nil => intro m _ hm hnd; exact ⟨hm, hnd⟩
  | cons nm rest ih =>
    intro m hsub hm hnd
    rw [List.foldl_cons]
    have hnm : nm ∈ names := hsub nm (by simp)
    have hsub' : ∀ x ∈ rest, x ∈ names := fun x hx => hsub x (by simp [hx])
    by_cases hdup : (m.find? (fun p => p.1 = casefold nm)).isSome
    · have hstep : buildStep m nm =
          m.map (fun p => if p.1 = casefold nm then (casefold nm, nm) else p) := by
        unfold buildStep
        rw [if_pos hdup]
      rw [hstep]
      apply ih
      · exact hsub'
      · intro p hp
        obtain ⟨q, hq, hqp⟩ := List.mem_map.mp hp
        by_cases hqk : q.1 = casefold nm
        · rw [if_pos hqk] at hqp
          rw [← hqp]
          exact ⟨rfl, hnm⟩
        · rw [if_neg hqk] at hqp
          rw [← hqp]
          exact hm q hq
      · have hkeys : (m.map
            (fun p => if p.1 = casefold nm then (casefold nm, nm) else p)).map
              (fun p => p.1) = m.map (fun p => p.1) := by
          rw [List.map_map]
          apply List.map_congr_left
          intro q _
          by_cases hqk : q.1 = casefold nm
          · simp [hqk]
          · simp [hqk]
        rw [hkeys]
        exact hnd
    · have hstep : buildStep m nm = m ++ [(casefold nm, nm)] := by
        unfold buildStep
        rw [if_neg hdup]
      rw [hstep]
      apply ih
      · exact hsub'
      · intro p hp
        rcases List.mem_append.mp hp with h | h
        · exact hm p h
        · rw [List.mem_singleton.mp h]
          exact ⟨rfl, hnm⟩
      · have hnone : m.find? (fun p => p.1 = casefold nm) = none :=
          Option.not_isSome_iff_eq_none.mp hdup
        have hnotin : casefold nm ∉ m.map (fun p => p.1) := by
          intro hmem
          obtain ⟨q, hqmem, hqeq⟩ := List.mem_map.mp hmem
          have := List.find?_eq_none.mp hnone q hqmem
          simp [hqeq] at this
        rw [List.map_append]
        simp only [List.nodup_append, List.map_cons, List.map_nil]
        exact ⟨hnd, List.nodup_singleton _, by
          intro a ha hb
          simp at hb
          exact hnotin (hb ▸ ha)⟩

theorem find_unique_key :
    ∀ (m : List (String × String)), ((m.map (fun p => p.1)).Nodup) →
      ∀ q ∈ m, m.find? (fun p => p.1 = q.1) = some q := by
  intro m
  induction m with
  | nil => intro _ q hq; simp at hq
  | cons e m' ih =>
    intro hnd q hq
    have hnd' : e.1 ∉ m'.map (fun p => p.1) ∧ (m'.map (fun p => p.1)).Nodup := by
      rw [List.map_cons, List.nodup_cons] at hnd
      exact hnd
    rcases List.mem_cons.mp hq with rfl | hq'
    · rw [List.find?_cons_of_pos _ (by simp)]
    · have hne : ¬ e.1 = q.1 := by
        intro he
        exact hnd'.1 (he ▸ List.mem_map.mpr ⟨q, hq', rfl⟩)
      rw [List.find?_cons_of_neg _ (by simp [hne])]
      exact ih hnd'.2 q hq'

theorem mapGet_of_mem (m : List (String × String))
    (hnd : (m.map (fun p => p.1)).Nodup) (q : String × String) (hq : q ∈ m) :
    mapGet m q.1 = q.2 := by
  unfold mapGet
  rw [find_unique_key m hnd q hq]
  rfl

theorem ratioQ_eq_repQ (a b : List Char) :
    ratioQ a b = repQ (ratioRep a b) := by
  unfold ratioQ repQ ratioRep
  simp [Nat.cast_add]

theorem repQ_lt_iff (p q : Nat × Nat) (hp : 0 < p.2) (hq : 0 < q.2) :
    fracLt p q = true ↔ repQ p < repQ q := by
  unfold fracLt repQ
  rw [decide_eq_true_eq,
    div_lt_div_iff (by exact_mod_cast hp) (by exact_mod_cast hq)]
  constructor
  · intro h
    calc (2:ℚ) * p.1 * q.2 = ((2 * (p.1 * q.2) : ℕ) : ℚ) := by push_cast; ring
    _ < ((2 * (q.1 * p.2) : ℕ) : ℚ) := by exact_mod_cast (by omega : 2 * (p.1 * q.2) < 2 * (q.1 * p.2))
    _ = 2 * q.1 * p.2 := by push_cast; ring
  · intro h
    by_contra hcon
    have hle : q.1 * p.2 ≤ p.1 * q.2 := by omega
    have : (2:ℚ) * q.1 * p.2 ≤ 2 * p.1 * q.2 := by
      calc (2:ℚ) * q.1 * p.2 = ((2 * (q.1 * p.2) : ℕ) : ℚ) := by push_cast; ring
      _ ≤ ((2 * (p.1 * q.2) : ℕ) : ℚ) := by exact_mod_cast (by omega : 2 * (q.1 * p.2) ≤ 2 * (p.1 * q.2))
      _ = 2 * p.1 * q.2 := by push_cast; ring
    exact absurd h (not_lt.mpr this)

theorem repQ_eq_iff (p q : Nat × Nat) (hp : 0 < p.2) (hq : 0 < q.2) :
    fracEq p q = true ↔ repQ p = repQ q := by
  unfold fracEq repQ
  rw [decide_eq_true_eq, div_eq_div_iff
    (show ((p.2 : ℚ)) ≠ 0 from Nat.cast_ne_zero.mpr (by omega))
    (show ((q.2 : ℚ)) ≠ 0 from Nat.cast_ne_zero.mpr (by omega))]
  constructor
  · intro h
    calc (2:ℚ) * p.1 * q.2 = ((2 * (p.1 * q.2) : ℕ) : ℚ) := by push_cast; ring
    _ = ((2 * (q.1 * p.2) : ℕ) : ℚ) := by exact_mod_cast (by omega : 2 * (p.1 * q.2) = 2 * (q.1 * p.2))
    _ = 2 * q.1 * p.2 := by push_cast; ring
  · intro h
    have h2 : ((2 * (p.1 * q.2) : ℕ) : ℚ) = ((2 * (q.1 * p.2) : ℕ) : ℚ) := by
      push_cast
      push_cast at h
      linarith
    have h3 : 2 * (p.1 * q.2) = 2 * (q.1 * p.2) := by exact_mod_cast h2
    omega

theorem tupleBefore_iff (x y : (Nat × Nat) × String)
    (hx : 0 < x.1.2) (hy : 0 < y.1.2) :
    tupleBefore x y = true ↔
      (repQ y.1 < repQ x.1 ∨
        (repQ x.1 = repQ y.1 ∧ strLtb x.2.data y.2.data = false)) := by
  unfold tupleBefore
  rw [Bool.or_eq_true, Bool.and_eq_true, repQ_lt_iff y.1 x.1 hy hx,
    repQ_eq_iff x.1 y.1 hx hy, Bool.not_eq_true']

theorem tupleBefore_tot (x y : (Nat × Nat) × String) :
    tupleBefore x y = true ∨ tupleBefore y x = true := by
  unfold tupleBefore fracLt fracEq
  rcases Nat.lt_trichotomy (x.1.1 * y.1.2) (y.1.1 * x.1.2) with h | h | h
  · right
    rw [Bool.or_eq_true, decide_eq_true_eq]
    left
    exact h
  · by_cases hs : strLtb x.2.data y.2.data = true
    · right
      rw [Bool.or_eq_true, Bool.and_eq_true, decide_eq_true_eq,
        decide_eq_true_eq, Bool.not_eq_true']
      right
      exact ⟨h.symm, strLtb_asymm _ _ hs⟩
    · left
      rw [Bool.or_eq_true, Bool.and_eq_true, decide_eq_true_eq,
        decide_eq_true_eq, Bool.not_eq_true']
      right
      exact ⟨h, Bool.not_eq_true _ ▸ hs⟩
  · left
    rw [Bool.or_eq_true, decide_eq_true_eq]
    left
    exact h

theorem tupleBefore_trans (x y z : (Nat × Nat) × String)
    (hx : 0 < x.1.2) (hy : 0 < y.1.2) (hz : 0 < z.1.2)
    (h1 : tupleBefore x y = true) (h2 : tupleBefore y z = true) :
    tupleBefore x z = true := by
  rw [tupleBefore_iff x y hx hy] at h1
  rw [tupleBefore_iff y z hy hz] at h2
  rw [tupleBefore_iff x z hx hz]
  rcases h1 with h1 | ⟨h1e, h1s⟩
  · rcases h2 with h2 | ⟨h2e, _⟩
    · left; exact lt_trans h2 h1
    · left; rw [← h2e]; exact h1
  · rcases h2 with h2 | ⟨h2e, h2s⟩
    · left; rw [h1e]; exact h2
    · right; exact ⟨h1e.trans h2e, strLtb_not_trans h1s h2s⟩

/-- C6 counterexample: "abcx" and "abcy" have the same similarity to
"abcd" (both share the block "abc", ratio 3/4), so registry-order
tie-breaking would return ["abcx", "abcy"]; the code returns
["abcy", "abcx"] because `heapq.nlargest` compares full `(ratio, key)`
tuples, breaking ratio ties by the larger casefolded string first. -/
theorem c6_counterexample :
    get_suggestions "abcd" ["abcx", "abcy"] 6 = ["abcy", "abcx"] ∧
    ratioQ (casefold "abcx").data (casefold (pyStrip "abcd")).data =
      ratioQ (casefold "abcy").data (casefold (pyStrip "abcd")).data := by
  constructor
  · decide
  · unfold ratioQ
    have h : matchSum (casefold "abcx").data (casefold (pyStrip "abcd")).data =
        matchSum (casefold "abcy").data (casefold (pyStrip "abcd")).data := by
      decide
    have h2 : (casefold "abcx").data.length = (casefold "abcy").data.length := by
      decide
    rw [h, h2]

theorem casefold_data_ne_nil {s : String} (h : s ≠ "") :
    (casefold s).data ≠ [] := by
  intro hcon
  apply h
  have : casefold s = "" := string_eq_iff_data.mpr (by simpa using hcon)
  exact (casefold_eq_empty_iff s).mp this

/-- C6 (amended): `get_suggestions` returns the empty sequence on an input
whose trimmed form is empty; otherwise it returns at most 6 registry names
whose case-insensitive similarity ratio to the trimmed input is at least
0.70, ordered by descending similarity — with ties broken by descending
lexicographic order of the casefolded names (Python tuple comparison in
`heapq.nlargest`), not by registry order.  The result is a function of its
arguments, hence deterministic. -/
theorem c6_theorem (typed : String) (names : List String) :
    (pyStrip typed = "" → get_suggestions typed names 6 = []) ∧
    (get_suggestions typed names 6).length ≤ 6 ∧
    (∀ o ∈ get_suggestions typed names 6, o ∈ names ∧
      (7:ℚ)/10 ≤ ratioQ (casefold o).data (casefold (pyStrip typed)).data) ∧
    (get_suggestions typed names 6).Pairwise (fun x y =>
      ratioQ (casefold y).data (casefold (pyStrip typed)).data <
        ratioQ (casefold x).data (casefold (pyStrip typed)).data ∨
      (ratioQ (casefold x).data (casefold (pyStrip typed)).data =
        ratioQ (casefold y).data (casefold (pyStrip typed)).data ∧
        strLtb (casefold x).data (casefold y).data = false)) := by
  by_cases ht : pyStrip typed = ""
  · have hout : get_suggestions typed names 6 = [] := by
      unfold get_suggestions
      rw [if_pos ht]
    rw [hout]
    exact ⟨fun _ => rfl, by simp, by simp, List.Pairwise.nil⟩
  · have hout : get_suggestions typed names 6 =
        ((sortBy tupleBefore ((buildNameMap names).filterMap
          (fun p =>
            if 7 * ((p.1).data.length + (casefold (pyStrip typed)).data.length) ≤
                20 * matchSum (p.1).data (casefold (pyStrip typed)).data then
              some (ratioRep (p.1).data (casefold (pyStrip typed)).data, p.1)
            else none))).take 6).map
          (fun p => mapGet (buildNameMap names) p.2) := by
      simp only [get_suggestions]
      rw [if_neg ht]
    obtain ⟨hinv, hnd⟩ := buildMap_fold_inv names names []
      (fun x hx => hx) (by intro p hp; simp at hp) (by simp)
    have hwlen : 0 < (casefold (pyStrip typed)).data.length := by
      have := casefold_data_ne_nil ht
      cases hc : (casefold (pyStrip typed)).data with
      | nil => exact absurd hc this
      | cons a t => simp
    set word := (casefold (pyStrip typed)).data with hword
    set A := buildNameMap names with hA
    set result := A.filterMap
      (fun p =>
        if 7 * ((p.1).data.length + word.length) ≤
            20 * matchSum (p.1).data word then
          some (ratioRep (p.1).data word, p.1)
        else none) with hresult
    have hres : ∀ p ∈ result, ∃ q ∈ A, p = (ratioRep (q.1).data word, q.1) ∧
        7 * ((q.1).data.length + word.length) ≤ 20 * matchSum (q.1).data word := by
      intro p hp
      rw [hresult] at hp
      obtain ⟨q, hq, hqp⟩ := List.mem_filterMap.mp hp
      by_cases hcut : 7 * ((q.1).data.length + word.length) ≤
          20 * matchSum (q.1).data word
      · rw [if_pos hcut] at hqp
        exact ⟨q, hq, (Option.some.injEq _ _ ▸ hqp).symm, hcut⟩
      · rw [if_neg hcut] at hqp
        exact absurd hqp (by simp)
    have hposP : ∀ p ∈ result, 0 < p.1.2 := by
      intro p hp
      obtain ⟨q, _, hpq, _⟩ := hres p hp
      rw [hpq]
      unfold ratioRep
      simp only
      omega
    have hsorted := pairwise_sortBy tupleBefore (fun p => 0 < p.1.2)
      (fun a b _ _ => tupleBefore_tot a b)
      (fun a b c ha hb hc => tupleBefore_trans a b c ha hb hc)
      result hposP
    have hclosemem : ∀ p ∈ (sortBy tupleBefore result).take 6, p ∈ result := by
      intro p hp
      exact (mem_sortBy tupleBefore result p).mp (List.take_subset _ _ hp)
    have hclosepw : ((sortBy tupleBefore result).take 6).Pairwise
        (fun a b => tupleBefore a b = true) :=
      List.Pairwise.sublist (List.take_sublist _ _) hsorted
    have hfact : ∀ p ∈ (sortBy tupleBefore result).take 6,
        ∃ q ∈ A, p = (ratioRep (q.1).data word, q.1) ∧
          mapGet A p.2 = q.2 ∧ casefold (mapGet A p.2) = p.2 ∧
          q.2 ∈ names ∧
          7 * ((q.1).data.length + word.length) ≤ 20 * matchSum (q.1).data word := by
      intro p hp
      obtain ⟨q, hq, hpq, hcut⟩ := hres p (hclosemem p hp)
      have hq2 : p.2 = q.1 := by rw [hpq]
      have hget : mapGet A p.2 = q.2 := by
        rw [hq2]
        exact mapGet_of_mem A hnd q hq
      have hcf : casefold q.2 = q.1 := ((hinv q hq).1).symm
      exact ⟨q, hq, hpq, hget, by rw [hget, hcf, hq2], (hinv q hq).2, hcut⟩
    rw [hout]
    refine ⟨fun hcon => absurd hcon ht, ?_, ?_, ?_⟩
    · rw [List.length_map]
      exact (List.length_take_le _ _)
    · intro o ho
      obtain ⟨p, hp, hpo⟩ := List.mem_map.mp ho
      obtain ⟨q, hq, hpq, hget, hcfold, hqn, hcut⟩ := hfact p hp
      constructor
      · rw [← hpo, hget]
        exact hqn
      · rw [← hpo, hcfold]
        have hq2 : p.2 = q.1 := by rw [hpq]
        rw [hq2]
        have hT : 0 < (q.1).data.length + word.length := by omega
        calc (7:ℚ)/10 ≤ ratioQ (q.1).data word := by
              rw [ratioQ, div_le_div_iff (by norm_num)
                (by exact_mod_cast hT)]
              calc (7:ℚ) * ((q.1).data.length + word.length) =
                  ((7 * ((q.1).data.length + word.length) : ℕ) : ℚ) := by
                    push_cast; ring
              _ ≤ ((20 * matchSum (q.1).data word : ℕ) : ℚ) := by
                    exact_mod_cast hcut
              _ = 2 * (matchSum (q.1).data word) * 10 := by push_cast; ring
        _ = ratioQ (q.1).data word := rfl
    · apply List.pairwise_map.mpr
      apply List.Pairwise.imp_of_mem ?_ hclosepw
      intro a b ha hb hab
      obtain ⟨qa, hqa, hpa, hgeta, hcfa, _, _⟩ := hfact a ha
      obtain ⟨qb, hqb, hpb, hgetb, hcfb, _, _⟩ := hfact b hb
      have hposa : 0 < a.1.2 := hposP a (hclosemem a ha)
      have hposb : 0 < b.1.2 := hposP b (hclosemem b hb)
      rw [tupleBefore_iff a b hposa hposb] at hab
      have hra : repQ a.1 = ratioQ (casefold (mapGet A a.2)).data word := by
        rw [hcfa, hpa]
        exact (ratioQ_eq_repQ (qa.1).data word).symm
      have hrb : repQ b.1 = ratioQ (casefold (mapGet A b.2)).data word := by
        rw [hcfb, hpb]
        exact (ratioQ_eq_repQ (qb.1).data word).symm
      rcases hab with h | ⟨he, hs⟩
      · left
        rw [← hra, ← hrb]
        exact h
      · right
        constructor
        · rw [← hra, ← hrb]
          exact he
        · rw [hcfa, hcfb]
          exact hs

/-- Witness for C6: the spec's own example — typed "Jon Smth" against
["John Smith", "Jane Doe"] returns ["John Smith"], and the returned name
is in the registry with similarity at least 0.70. -/
theorem c6_witness :
    get_suggestions "Jon Smth" ["John Smith", "Jane Doe"] 6 = ["John Smith"] ∧
    get_suggestions "" ["John Smith", "Jane Doe"] 6 = [] ∧
    ("John Smith" ∈ (["John Smith", "Jane Doe"] : List String) ∧
      (7:ℚ)/10 ≤ ratioQ (casefold "John Smith").data
        (casefold (pyStrip "Jon Smth")).data) := by
  have hrun : get_suggestions "Jon Smth" ["John Smith", "Jane Doe"] 6 =
      ["John Smith"] := by
    set_option maxRecDepth 4000 in decide
  refine ⟨hrun, (c6_theorem ("") ["John Smith", "Jane Doe"]).1 (by decide), ?_⟩
  have h := (c6_theorem ("Jon Smth") ["John Smith", "Jane Doe"]).2.2.1
  rw [hrun] at h
  exact h "John Smith" (by simp)

/-! ### Claim C1: shared scan lemmas and string facts -/

theorem find?_range'_some {p : Nat → Bool} :
    ∀ (n s c : Nat), (List.range' s n).find? p = some c →
      s ≤ c ∧ c < s + n ∧ p c = true ∧ ∀ x, s ≤ x → x < c → p x = false := by
  intro n
  induction n with
  | zero => intro s c h; simp [List.range'] at h
  | succ n ih =>
    intro s c h
    rw [List.range'] at h
    rw [List.find?_cons] at h
    cases hp : p s with
    | true =>
      rw [hp] at h
      simp at h
      subst h
      exact ⟨le_refl _, by omega, hp, fun x h1 h2 => absurd h1 (by omega)⟩
    | false =>
      rw [hp] at h
      simp only at h
      obtain ⟨h1, h2, h3, h4⟩ := ih (s+1) c h
      refine ⟨by omega, by omega, h3, ?_⟩
      intro x hx1 hx2
      rcases eq_or_lt_of_le hx1 with rfl | hlt
      · exact hp
      · exact h4 x (by omega) hx2

theorem find?_range'_some_of {p : Nat → Bool} :
    ∀ (n s c : Nat), s ≤ c → c < s + n → p c = true →
      (∀ x, s ≤ x → x < c → p x = false) →
      (List.range' s n).find? p = some c := by
  intro n
  induction n with
  | zero => intro s c h1 h2; omega
  | succ n ih =>
    intro s c h1 h2 h3 h4
    rw [List.range', List.find?_cons]
    rcases eq_or_lt_of_le h1 with rfl | hlt
    · rw [h3]
    · rw [h4 s (le_refl _) hlt]
      exact ih (s+1) c hlt (by omega) h3 (fun x hx1 hx2 => h4 x (by omega) hx2)

theorem casefold_ne_empty {s : String} (h : s ≠ "") : casefold s ≠ "" :=
  fun hc => h ((casefold_eq_empty_iff s).mp hc)

theorem ne_empty_of_pyStrip_ne {s : String} (h : pyStrip s ≠ "") : s ≠ "" := by
  intro hs
  apply h
  rw [hs]
  rfl

theorem truthy_ne_none {v : CellVal} (h : truthy v = true) : v ≠ CellVal.vNone := by
  intro hv
  rw [hv] at h
  exact absurd h (by simp [truthy])

theorem digitOf_not_ws (n : Nat) : isWS (digitOf n) = false := by
  unfold digitOf isWS
  have h : n % 10 < 10 := Nat.mod_lt _ (by omega)
  revert h
  generalize n % 10 = k
  intro h
  interval_cases k <;> decide

theorem data_append (a b : String) : (a ++ b).data = a.data ++ b.data := rfl

theorem twoDigits_no_ws (n : Nat) : ∀ c ∈ (twoDigits n).data, isWS c = false := by
  intro c hc
  unfold twoDigits at hc
  simp at hc
  rcases hc with h | h
  · rw [h]; exact digitOf_not_ws _
  · rw [h]; exact digitOf_not_ws _

theorem sixDigits_no_ws (n : Nat) : ∀ c ∈ (sixDigits n).data, isWS c = false := by
  intro c hc
  unfold sixDigits at hc
  simp at hc
  rcases hc with h | h | h | h | h | h
  all_goals rw [h]; exact digitOf_not_ws _

theorem timeStr_no_ws (hh m sec micro : Nat) :
    ∀ c ∈ (timeStr hh m sec micro).data, isWS c = false := by
  intro c hc
  unfold timeStr at hc
  simp only [data_append, List.mem_append] at hc
  rcases hc with ((((hc | hc) | hc) | hc) | hc) | hc
  · exact twoDigits_no_ws _ c hc
  · simp at hc
    rw [hc]
    decide
  · exact twoDigits_no_ws _ c hc
  · simp at hc
    rw [hc]
    decide
  · exact twoDigits_no_ws _ c hc
  · by_cases hmz : micro = 0
    · rw [if_pos hmz] at hc
      simp at hc
    · rw [if_neg hmz] at hc
      rw [data_append, List.mem_append] at hc
      rcases hc with hc | hc
      · simp at hc
        rw [hc]
        decide
      · exact sixDigits_no_ws _ c hc

theorem pyStrip_timeStr (h m sec micro : Nat) :
    pyStrip (timeStr h m sec micro) = timeStr h m sec micro := by
  unfold pyStrip
  rw [stripList_eq_self _ (timeStr_no_ws h m sec micro)]

theorem timeStr_ne_empty (h m sec micro : Nat) :
    timeStr h m sec micro ≠ "" := by
  intro hcon
  have := congrArg String.data hcon
  unfold timeStr twoDigits at this
  simp [data_append] at this

theorem cellMarkedTime (h m sec micro : Nat) :
    CellVal.vTime h m sec micro ≠ CellVal.vNone ∧
      pyStrip (cellStr (CellVal.vTime h m sec micro)) ≠ "" := by
  refine ⟨by simp, ?_⟩
  show pyStrip (timeStr h m sec micro) ≠ ""
  rw [pyStrip_timeStr]
  exact timeStr_ne_empty h m sec micro

theorem rowMatches_new (name status t target : String) (hname : name ≠ "")
    (htarget : casefold (pyStrip name) = target) :
    rowMatches [CellVal.vStr t, CellVal.vStr name, CellVal.vStr status] target
      = true := by
  unfold rowMatches
  rw [if_neg]
  · simp only [List.getD_cons_succ, List.getD_cons_zero]
    show decide (casefold (pyStrip (cellStr (CellVal.vStr name))) = target) = true
    rw [decide_eq_true_eq]
    exact htarget
  · push_neg
    refine ⟨by simp, by simp, ?_⟩
    simp only [List.getD_cons_succ, List.getD_cons_zero]
    show truthy (CellVal.vStr name) = true
    simp [truthy, hname]

theorem already_false_countMatch (rows : Grid) (name : String)
    (hne : casefold (pyStrip name) ≠ "")
    (h : already_signed_in_today rows name = false) :
    countMatch rows (casefold (pyStrip name)) = 0 := by
  unfold already_signed_in_today at h
  rw [if_neg hne] at h
  unfold countMatch
  rw [List.length_eq_zero]
  apply List.filter_eq_nil_iff.mpr
  intro row hrow
  have := List.any_eq_false.mp h row hrow
  simp [this]

theorem drop_one_append {α : Type} (l : List α) (x : α) (h : l ≠ []) :
    (l ++ [x]).drop 1 = l.drop 1 ++ [x] := by
  cases l with
  | nil => exact absurd rfl h
  | cons a t => simp

theorem c1_daily_part :
    ∀ (rows : Grid) (name name' status status' t t' : String),
      rows ≠ [] → pyStrip name ≠ "" →
      casefold (pyStrip name') = casefold (pyStrip name) →
      (log_attendance rows name status t).2 = true →
      log_attendance (log_attendance rows name status t).1 name' status' t' =
        ((log_attendance rows name status t).1, false) ∧
      countMatch (log_attendance rows name status t).1
        (casefold (pyStrip name)) = 1 := by
  intro rows name name' status status' t t' hrows hname hsame hok
  have htne : casefold (pyStrip name) ≠ "" := casefold_ne_empty hname
  have halready : already_signed_in_today rows name = false := by
    by_cases h : already_signed_in_today rows name
    · exfalso
      have : log_attendance rows name status t = (rows, false) := by
        unfold log_attendance
        rw [if_pos h]
      rw [this] at hok
      exact Bool.false_ne_true hok
    · exact Bool.not_eq_true _ ▸ h
  have hlog : log_attendance rows name status t =
      (appendRow rows
        [CellVal.vStr t, CellVal.vStr name, CellVal.vStr status], true) := by
    unfold log_attendance
    rw [halready, if_neg Bool.false_ne_true]
  have hnm : name ≠ "" := ne_empty_of_pyStrip_ne hname
  have hmatch : rowMatches
      [CellVal.vStr t, CellVal.vStr name, CellVal.vStr status]
      (casefold (pyStrip name)) = true :=
    rowMatches_new name status t _ hnm rfl
  have hdrop : ((appendRow rows
      [CellVal.vStr t, CellVal.vStr name, CellVal.vStr status]) : Grid).drop 1 =
      rows.drop 1 ++ [[CellVal.vStr t, CellVal.vStr name, CellVal.vStr status]] :=
    drop_one_append rows _ hrows
  have halready2 : ∀ nm2 : String,
      casefold (pyStrip nm2) = casefold (pyStrip name) →
      already_signed_in_today
        (appendRow rows [CellVal.vStr t, CellVal.vStr name, CellVal.vStr status])
        nm2 = true := by
    intro nm2 hnm2
    unfold already_signed_in_today
    rw [hnm2, if_neg htne, hdrop, List.any_append]
    have : List.any [[CellVal.vStr t, CellVal.vStr name, CellVal.vStr status]]
        (fun row => rowMatches row (casefold (pyStrip name))) = true := by
      simp [hmatch]
    rw [this, Bool.or_true]
  constructor
  · rw [hlog]
    unfold log_attendance
    rw [halready2 name' hsame, if_pos rfl]
  · rw [hlog]
    unfold countMatch
    rw [hdrop, List.filter_append]
    have h0 : countMatch rows (casefold (pyStrip name)) = 0 :=
      already_false_countMatch rows name htne halready
    unfold countMatch at h0
    rw [List.length_append, h0]
    simp [hmatch]

theorem getCell_beyond (g : Grid) (r c : Nat) (h : g.length < r) :
    getCell g r c = CellVal.vNone := by
  unfold getCell
  have h1 : g.getD (r-1) ([] : List CellVal) = [] := by
    rw [List.getD_eq_getElem?_getD, List.getElem?_eq_none (by omega)]
    rfl
  rw [h1]
  rfl

theorem rowKeyAt_congr {g g' : Grid} {r : Nat}
    (h : getCell g' r 1 = getCell g r 1) : rowKeyAt g' r = rowKeyAt g r := by
  unfold rowKeyAt
  rw [h]

theorem isStudentRow_congr {g g' : Grid} {t : String} {r : Nat}
    (h : getCell g' r 1 = getCell g r 1) :
    isStudentRow g' t r = isStudentRow g t r := by
  unfold isStudentRow
  rw [rowKeyAt_congr h]

theorem isDateCol_congr {g g' : Grid} {lbl : String} {c : Nat}
    (h : getCell g' 1 c = getCell g 1 c) :
    isDateCol g' lbl c = isDateCol g lbl c := by
  unfold isDateCol
  rw [h]

theorem isDateCol_ne_none {g : Grid} {lbl : String} {c : Nat}
    (h : isDateCol g lbl c = true) : getCell g 1 c ≠ CellVal.vNone := by
  unfold isDateCol at h
  rw [Bool.and_eq_true] at h
  exact truthy_ne_none h.1

theorem isStudentRow_ne_none {g : Grid} {t : String} {r : Nat}
    (h : isStudentRow g t r = true) : getCell g r 1 ≠ CellVal.vNone := by
  unfold isStudentRow rowKeyAt at h
  rw [decide_eq_true_eq] at h
  by_cases ht : truthy (getCell g r 1)
  · exact truthy_ne_none ht
  · rw [if_neg ht] at h
    exact absurd h (by simp)

theorem ensure_eq_of_found {g : Grid} {lbl : String} {c : Nat}
    (h : (List.range' 2 (maxCol g - 1)).find? (isDateCol g lbl) = some c) :
    ensure_date_column g lbl = (g, c) := by
  unfold ensure_date_column
  rw [h]

theorem forc_eq_of_found {g : Grid} {name : String} {r : Nat}
    (h : (List.range' 2 (maxRow g - 1)).find?
      (isStudentRow g (casefold (pyStrip name))) = some r) :
    find_or_create_student_row g name = (g, r) := by
  unfold find_or_create_student_row
  rw [h]

theorem maxRow_pos (g : Grid) : 1 ≤ maxRow g := by unfold maxRow; omega

theorem maxCol_pos (g : Grid) : 1 ≤ maxCol g := by unfold maxCol; omega

theorem ensure_spec (g : Grid) (lbl : String)
    (hlblstrip : pyStrip lbl = lbl) (hlblne : lbl ≠ "") :
    2 ≤ (ensure_date_column g lbl).2 ∧
    (∀ r c, 1 ≤ r → 1 ≤ c → (r ≠ 1 ∨ c ≠ (ensure_date_column g lbl).2) →
      getCell (ensure_date_column g lbl).1 r c = getCell g r c) ∧
    isDateCol (ensure_date_column g lbl).1 lbl (ensure_date_column g lbl).2 = true ∧
    (∀ x, 2 ≤ x → x < (ensure_date_column g lbl).2 → isDateCol g lbl x = false) ∧
    maxRow (ensure_date_column g lbl).1 = maxRow g := by
  cases hf : (List.range' 2 (maxCol g - 1)).find? (isDateCol g lbl) with
  | some c =>
    have heq : ensure_date_column g lbl = (g, c) := ensure_eq_of_found hf
    obtain ⟨h1, _, h3, h4⟩ := find?_range'_some _ _ _ hf
    rw [heq]
    exact ⟨h1, fun r c _ _ _ => rfl, h3, h4, rfl⟩
  | none =>
    have heq : ensure_date_column g lbl =
        (setCell g 1 (maxCol g + 1) (CellVal.vStr lbl), maxCol g + 1) := by
      unfold ensure_date_column
      rw [hf]
    have hmc := maxCol_pos g
    rw [heq]
    refine ⟨by omega, ?_, ?_, ?_, ?_⟩
    · intro r c hr hc hne
      exact getCell_setCell_ne g 1 (maxCol g + 1) r c _ (by omega) (by omega)
        hr hc (by tauto)
    · unfold isDateCol
      rw [getCell_setCell_same g 1 (maxCol g + 1) _ (by omega) (by omega)]
      have ht : truthy (CellVal.vStr lbl) = true := by simp [truthy, hlblne]
      rw [ht]
      show (true && decide (pyStrip (cellStr (CellVal.vStr lbl)) = lbl)) = true
      rw [Bool.true_and, decide_eq_true_eq]
      exact hlblstrip
    · intro x hx1 hx2
      have hmem : x ∈ List.range' 2 (maxCol g - 1) := by
        apply List.mem_range'_1.mpr
        omega
      exact Bool.not_eq_true _ ▸ List.find?_eq_none.mp hf x hmem
    · rw [maxRow_setCell _ _ _ _ (by omega)]
      have := maxRow_pos g
      omega

theorem forc_spec (g : Grid) (name : String) (hname : pyStrip name ≠ "") :
    2 ≤ (find_or_create_student_row g name).2 ∧
    (∀ r c, 1 ≤ r → 1 ≤ c →
      (r ≠ (find_or_create_student_row g name).2 ∨ c ≠ 1) →
      getCell (find_or_create_student_row g name).1 r c = getCell g r c) ∧
    isStudentRow (find_or_create_student_row g name).1
      (casefold (pyStrip name)) (find_or_create_student_row g name).2 = true ∧
    (∀ x, 2 ≤ x → x < (find_or_create_student_row g name).2 →
      isStudentRow g (casefold (pyStrip name)) x = false) ∧
    (find_or_create_student_row g name).2 ≤
      maxRow (find_or_create_student_row g name).1 ∧
    maxRow (find_or_create_student_row g name).1 =
      max (maxRow g) (find_or_create_student_row g name).2 ∧
    (∀ x, 1 ≤ x → x ≠ (find_or_create_student_row g name).2 →
      isStudentRow (find_or_create_student_row g name).1
        (casefold (pyStrip name)) x =
        isStudentRow g (casefold (pyStrip name)) x) ∧
    ((find_or_create_student_row g name).2 ≤ maxRow g →
      find_or_create_student_row g name = (g, (find_or_create_student_row g name).2)) := by
  cases hf : (List.range' 2 (maxRow g - 1)).find?
      (isStudentRow g (casefold (pyStrip name))) with
  | some r =>
    have heq : find_or_create_student_row g name = (g, r) := forc_eq_of_found hf
    obtain ⟨h1, h2, h3, h4⟩ := find?_range'_some _ _ _ hf
    have hmr := maxRow_pos g
    rw [heq]
    exact ⟨h1, fun r c _ _ _ => rfl, h3, h4, by simp only; omega,
      by simp only; omega, fun x _ _ => rfl, fun _ => rfl⟩
  | none =>
    have heq : find_or_create_student_row g name =
        (setCell g (maxRow g + 1) 1 (CellVal.vStr (pyStrip name)), maxRow g + 1) := by
      unfold find_or_create_student_row
      rw [hf]
    have hmr := maxRow_pos g
    rw [heq]
    have hpres : ∀ r c, 1 ≤ r → 1 ≤ c → (r ≠ maxRow g + 1 ∨ c ≠ 1) →
        getCell (setCell g (maxRow g + 1) 1 (CellVal.vStr (pyStrip name))) r c =
          getCell g r c := by
      intro r c hr hc hne
      exact getCell_setCell_ne g (maxRow g + 1) 1 r c _ (by omega) (by omega)
        hr hc (by tauto)
    refine ⟨by omega, hpres, ?_, ?_, ?_, ?_, ?_, ?_⟩
    · unfold isStudentRow rowKeyAt
      rw [getCell_setCell_same g (maxRow g + 1) 1 _ (by omega) (by omega)]
      have ht : truthy (CellVal.vStr (pyStrip name)) = true := by
        simp [truthy, hname]
      rw [if_pos ht, decide_eq_true_eq]
      show some (casefold (pyStrip (pyStrip name))) = some (casefold (pyStrip name))
      rw [pyStrip_idem]
    · intro x hx1 hx2
      have hmem : x ∈ List.range' 2 (maxRow g - 1) := by
        apply List.mem_range'_1.mpr
        omega
      exact Bool.not_eq_true _ ▸ List.find?_eq_none.mp hf x hmem
    · simp only
      rw [maxRow_setCell _ _ _ _ (by omega)]
      omega
    · simp only
      rw [maxRow_setCell _ _ _ _ (by omega)]
    · intro x hx1 hx2
      exact isStudentRow_congr (hpres x 1 hx1 (by omega) (Or.inl hx2))
    · intro hle
      simp only at hle
      omega

set_option maxHeartbeats 1600000 in
theorem c1_matrix_part :
    ∀ (st : WebState) (now : MT) (name name' status status' : String),
      pyStrip name ≠ "" →
      casefold (pyStrip name') = casefold (pyStrip name) →
      pyStrip now.dateLabel = now.dateLabel →
      now.dateLabel ≠ "" →
      (st.att = [] ∨ getCell st.att 1 1 ≠ CellVal.vNone) →
      (st.log = [] ∨ getCell st.log 1 1 ≠ CellVal.vNone) →
      (mark_present st now name status).2.2 = true →
      mark_present (mark_present st now name status).1 now name' status' =
        ((mark_present st now name status).1, now.dateLabel, false) ∧
      cellMarked (mark_present st now name status).1.att
        (find_or_create_student_row
          (ensure_date_column (fixAttHeader st.att) now.dateLabel).1 name).2
        (ensure_date_column (fixAttHeader st.att) now.dateLabel).2 = true ∧
      ((∀ r r', 2 ≤ r → 2 ≤ r' →
          isStudentRow (ensure_date_column (fixAttHeader st.att) now.dateLabel).1
            (casefold (pyStrip name)) r = true →
          isStudentRow (ensure_date_column (fixAttHeader st.att) now.dateLabel).1
            (casefold (pyStrip name)) r' = true → r = r') →
        ∀ r, 2 ≤ r →
          isStudentRow (mark_present st now name status).1.att
            (casefold (pyStrip name)) r = true →
          cellMarked (mark_present st now name status).1.att r
            (ensure_date_column (fixAttHeader st.att) now.dateLabel).2 = true →
          r = (find_or_create_student_row
            (ensure_date_column (fixAttHeader st.att) now.dateLabel).1 name).2) := by
  intro st now name name' status status' hname hsame hlbl hlblne hAtt hLog hok
  set key := casefold (pyStrip name) with hkeydef
  set att0 := fixAttHeader st.att with hatt0def
  set att1 := (ensure_date_column att0 now.dateLabel).1 with hatt1def
  set col := (ensure_date_column att0 now.dateLabel).2 with hcoldef
  set att2 := (find_or_create_student_row att1 name).1 with hatt2def
  set row := (find_or_create_student_row att1 name).2 with hrowdef
  obtain ⟨hc2, hEpres, hEcol, hEfail, hEmax⟩ :=
    ensure_spec att0 now.dateLabel hlbl hlblne
  obtain ⟨hr2, hFpres, hFrow, hFfail, hFle, hFmax, hFcongr, hFcase⟩ :=
    forc_spec att1 name hname
  rw [← hcoldef] at hc2 hEfail
  rw [← hatt1def, ← hcoldef] at hEpres hEcol
  rw [← hatt1def] at hEmax
  rw [← hrowdef] at hr2 hFfail hFcase
  rw [← hatt2def, ← hrowdef] at hFpres hFrow hFle hFmax hFcongr
  rw [← hkeydef] at hFrow hFfail hFcongr
  clear_value key att0 att1 col att2 row
  by_cases hguard : getCell att2 row col ≠ CellVal.vNone ∧
      pyStrip (cellStr (getCell att2 row col)) ≠ ""
  · exfalso
    have hfalse : (mark_present st now name status).2.2 = false := by
      simp only [mark_present]
      rw [← hatt0def, ← hatt1def, ← hcoldef, ← hatt2def, ← hrowdef, if_pos hguard]
    rw [hfalse] at hok
    exact Bool.false_ne_true hok
  · have hmark : mark_present st now name status =
        ({ students := st.students,
           att := setCell att2 row col
             (CellVal.vTime now.h now.m now.sec now.micro),
           log := appendRow (fixLogHeader st.log)
             [CellVal.vDt now.date now.h now.m now.sec now.micro,
              CellVal.vStr name, CellVal.vStr status,
              CellVal.vStr now.dateLabel, CellVal.vStr "P"],
           fills := if isLate now then (row, col) :: st.fills else st.fills },
          now.dateLabel, true) := by
      simp only [mark_present]
      rw [← hatt0def, ← hatt1def, ← hcoldef, ← hatt2def, ← hrowdef, if_neg hguard]
  
    set attF := setCell att2 row col
      (CellVal.vTime now.h now.m now.sec now.micro) with hattFdef
    have hcell : getCell attF row col =
        CellVal.vTime now.h now.m now.sec now.micro :=
      getCell_setCell_same att2 row col _ (by omega) (by omega)
    have hattF_pres : ∀ r c, 1 ≤ r → 1 ≤ c → (r ≠ row ∨ c ≠ col) →
        getCell attF r c = getCell att2 r c := by
      intro r c hr hc hne
      exact getCell_setCell_ne att2 row col r c _ (by omega) (by omega) hr hc
        (hne.imp Ne.symm Ne.symm)
    have hattF_max : maxRow attF = maxRow att2 := by
      rw [hattFdef, maxRow_setCell _ _ _ _ (by omega)]
      omega
    have hhdr : ∀ c, 1 ≤ c → getCell attF 1 c = getCell att1 1 c := by
      intro c hc
      rw [hattF_pres 1 c (by omega) hc (Or.inl (by omega)),
        hFpres 1 c (by omega) hc (Or.inl (by omega))]
    have hisrow : ∀ x, 1 ≤ x → isStudentRow attF key x = isStudentRow att2 key x := by
      intro x hx
      apply isStudentRow_congr
      exact hattF_pres x 1 hx (by omega) (Or.inr (by omega))
    have hA1 : getCell attF 1 1 ≠ CellVal.vNone := by
      rw [hhdr 1 (by omega), hEpres 1 1 (by omega) (by omega) (Or.inr (by omega))]
      rcases hAtt with h | h
      · rw [hatt0def, h]
        show getCell (fixAttHeader []) 1 1 ≠ CellVal.vNone
        decide
      · rw [hatt0def]
        unfold fixAttHeader
        by_cases hA : getCell st.att 1 1 = CellVal.vNone
        · exact absurd hA h
        · rw [if_neg hA]
          exact h
    have hfix2 : fixAttHeader attF = attF := by
      unfold fixAttHeader
      rw [if_neg hA1]
    have hcolle : col ≤ maxCol attF := by
      apply le_maxCol_of_getCell_ne attF col (by omega)
      rw [hhdr col (by omega)]
      exact isDateCol_ne_none hEcol
    have hisDateF : isDateCol attF now.dateLabel col = true := by
      rw [isDateCol_congr (hhdr col (by omega))]
      exact hEcol
    have hEfind2 : (List.range' 2 (maxCol attF - 1)).find?
        (isDateCol attF now.dateLabel) = some col := by
      apply find?_range'_some_of _ _ _ hc2 (by omega) hisDateF
      intro x hx1 hx2
      have hx : getCell attF 1 x = getCell att0 1 x := by
        rw [hhdr x (by omega)]
        exact hEpres 1 x (by omega) (by omega) (Or.inr (by omega))
      rw [isDateCol_congr hx]
      exact hEfail x hx1 hx2
    have hens2 : ensure_date_column attF now.dateLabel = (attF, col) :=
      ensure_eq_of_found hEfind2
    have hrowle : row ≤ maxRow attF := by
      rw [hattF_max]
      exact hFle
    have hisRowF : isStudentRow attF key row = true := by
      rw [hisrow row (by omega)]
      exact hFrow
    have hFfind2 : (List.range' 2 (maxRow attF - 1)).find?
        (isStudentRow attF (casefold (pyStrip name'))) = some row := by
      rw [hsame]
      apply find?_range'_some_of _ _ _ hr2 (by omega) hisRowF
      intro x hx1 hx2
      rw [hisrow x (by omega), hFcongr x (by omega) (by omega)]
      exact hFfail x hx1 hx2
    have hforc2 : find_or_create_student_row attF name' = (attF, row) :=
      forc_eq_of_found hFfind2
    have hguard2 : getCell attF row col ≠ CellVal.vNone ∧
        pyStrip (cellStr (getCell attF row col)) ≠ "" := by
      rw [hcell]
      exact cellMarkedTime now.h now.m now.sec now.micro
    refine ⟨?_, ?_, ?_⟩
    · rw [hmark]
      simp only [mark_present]
      rw [hfix2, hens2, hforc2]
      simp only
      rw [if_pos hguard2]
    · rw [hmark]
      unfold cellMarked
      simp only
      rw [hcell]
      have h := cellMarkedTime now.h now.m now.sec now.micro
      rw [decide_eq_true h.1, decide_eq_true h.2]
      rfl
    · intro huniq r hrge hisr hmarked
      rw [hmark] at hisr
      simp only at hisr
      have hisr2 : isStudentRow att2 key r = true := by
        rw [← hisrow r (by omega)]
        exact hisr
      by_cases hrr : r = row
      · exact hrr
      · by_cases hle : row ≤ maxRow att1
        · have hatt21 : att2 = att1 := by
            have := hFcase hle
            rw [hatt2def, this]
          have hisr1 : isStudentRow att1 key r = true := by
            rw [← hatt21]
            exact hisr2
          exact huniq r row hrge hr2 hisr1 (by rw [← hatt21]; exact hFrow)
        · exfalso
          have hisr1 : isStudentRow att1 key r = true := by
            rw [← hFcongr r (by omega) hrr]
            exact hisr2
          by_cases hrle : r ≤ maxRow att1
          · have : r < row := by omega
            rw [hFfail r hrge this] at hisr1
            exact Bool.false_ne_true hisr1
          · have hbey : getCell att1 r 1 = CellVal.vNone := by
              apply getCell_beyond
              have := maxRow_pos att1
              unfold maxRow at hrle
              omega
            exact absurd hbey (isStudentRow_ne_none hisr1)

/-- C1 (amended): sign-in is idempotent in both variants for every student
name whose trimmed form is non-empty (the original claim fails for blank
names, see the counterexample).  Daily variant: a successful
`log_attendance` leaves exactly one matching row and a repeat call (with
any case variant of the name) changes nothing and reports a duplicate, on
any sheet that has its header row.  Matrix variant: after a successful
`mark_present` on a store whose attendance and log sheets are empty or
carry their header cell, and whose date label is trim-invariant and
non-empty, a repeat call changes nothing and reports a duplicate, the
written cell is non-empty, and (when the attendance sheet has at most one
row per key) it is the only non-empty cell for that student in today's
column. -/
theorem c1_theorem :
    (∀ (rows : Grid) (name name' status status' t t' : String),
      rows ≠ [] → pyStrip name ≠ "" →
      casefold (pyStrip name') = casefold (pyStrip name) →
      (log_attendance rows name status t).2 = true →
      log_attendance (log_attendance rows name status t).1 name' status' t' =
        ((log_attendance rows name status t).1, false) ∧
      countMatch (log_attendance rows name status t).1
        (casefold (pyStrip name)) = 1) ∧
    (∀ (st : WebState) (now : MT) (name name' status status' : String),
      pyStrip name ≠ "" →
      casefold (pyStrip name') = casefold (pyStrip name) →
      pyStrip now.dateLabel = now.dateLabel →
      now.dateLabel ≠ "" →
      (st.att = [] ∨ getCell st.att 1 1 ≠ CellVal.vNone) →
      (st.log = [] ∨ getCell st.log 1 1 ≠ CellVal.vNone) →
      (mark_present st now name status).2.2 = true →
      mark_present (mark_present st now name status).1 now name' status' =
        ((mark_present st now name status).1, now.dateLabel, false) ∧
      cellMarked (mark_present st now name status).1.att
        (find_or_create_student_row
          (ensure_date_column (fixAttHeader st.att) now.dateLabel).1 name).2
        (ensure_date_column (fixAttHeader st.att) now.dateLabel).2 = true ∧
      ((∀ r r', 2 ≤ r → 2 ≤ r' →
          isStudentRow (ensure_date_column (fixAttHeader st.att) now.dateLabel).1
            (casefold (pyStrip name)) r = true →
          isStudentRow (ensure_date_column (fixAttHeader st.att) now.dateLabel).1
            (casefold (pyStrip name)) r' = true → r = r') →
        ∀ r, 2 ≤ r →
          isStudentRow (mark_present st now name status).1.att
            (casefold (pyStrip name)) r = true →
          cellMarked (mark_present st now name status).1.att r
            (ensure_date_column (fixAttHeader st.att) now.dateLabel).2 = true →
          r = (find_or_create_student_row
            (ensure_date_column (fixAttHeader st.att) now.dateLabel).1 name).2)) :=
  ⟨c1_daily_part, c1_matrix_part⟩

/-- C1 counterexample to the claim as stated, which quantifies over every
student name: a name that strips to whitespace defeats the daily
duplicate guard, so a second `log_attendance` call still reports success
and appends a second row (three rows total counting the header) instead
of being a no-op with exactly one stored record. -/
theorem c1_counterexample :
    (log_attendance
        (log_attendance [[CellVal.vStr "Time", CellVal.vStr "Name",
          CellVal.vStr "Status"]] " " "Registered" "09:00:00").1
        " " "Registered" "09:05:00").2 = true ∧
    (log_attendance
        (log_attendance [[CellVal.vStr "Time", CellVal.vStr "Name",
          CellVal.vStr "Status"]] " " "Registered" "09:00:00").1
        " " "Registered" "09:05:00").1.length = 3 := by
  decide

/-- Witness for C1 at concrete inputs: the daily conjunct on a one-header
sheet with name "Ann" repeated as "ANN", and the matrix conjunct on the
empty store. -/
theorem c1_witness :
    (log_attendance (log_attendance [[CellVal.vStr "Time"]] "Ann" "Registered"
          "09:00:00").1 "ANN" "Unregistered" "09:05:00" =
        ((log_attendance [[CellVal.vStr "Time"]] "Ann" "Registered"
          "09:00:00").1, false) ∧
      countMatch (log_attendance [[CellVal.vStr "Time"]] "Ann" "Registered"
          "09:00:00").1 (casefold (pyStrip "Ann")) = 1) ∧
    mark_present (mark_present ⟨[], [], [], []⟩ ⟨"10/12", 20261012, 9, 0, 0, 0⟩
        "Ann" "Registered").1 ⟨"10/12", 20261012, 9, 0, 0, 0⟩ "ANN"
        "Unregistered" =
      ((mark_present ⟨[], [], [], []⟩ ⟨"10/12", 20261012, 9, 0, 0, 0⟩
        "Ann" "Registered").1, "10/12", false) := by
  constructor
  · exact c1_theorem.1 [[CellVal.vStr "Time"]] "Ann" "ANN" "Registered"
      "Unregistered" "09:00:00" "09:05:00" (by decide) (by decide) (by decide)
      (by decide)
  · exact (c1_theorem.2 ⟨[], [], [], []⟩ ⟨"10/12", 20261012, 9, 0, 0, 0⟩
      "Ann" "ANN" "Registered" "Unregistered" (by decide) (by decide)
      (by decide) (by decide) (Or.inl rfl) (Or.inl rfl) (by decide)).1

/-! ### Lemmas: the finalize pipeline (row map, resolve pass, loop) -/

theorem keyMem_iff (rm : List (String × Nat)) (k : String) :
    ((rm.find? (fun p => p.1 = k)).isSome) = true ↔
      k ∈ rm.map (fun p => p.1) := by
  rw [List.find?_isSome, List.mem_map]
  constructor
  · rintro ⟨p, hp, hk⟩
    exact ⟨p, hp, of_decide_eq_true hk⟩
  · rintro ⟨p, hp, hk⟩
    exact ⟨p, hp, decide_eq_true hk⟩

theorem find?_key_eq {rm : List (String × Nat)} {k : String}
    {p : String × Nat} (h : rm.find? (fun q => q.1 = k) = some p) :
    p.1 = k ∧ p ∈ rm := by
  have h1 := List.find?_some h
  have h2 := List.mem_of_find?_eq_some h
  exact ⟨of_decide_eq_true h1, h2⟩

theorem upsert_of_not_found {rm : List (String × Nat)} {k : String}
    (v : Nat) (h : rm.find? (fun p => p.1 = k) = none) :
    upsert rm k v = rm ++ [(k, v)] := by
  unfold upsert
  rw [h]
  rfl

theorem upsert_found_keys {rm : List (String × Nat)} {k : String} (v : Nat)
    (h : (rm.find? (fun p => p.1 = k)).isSome) :
    (upsert rm k v).map (fun p => p.1) = rm.map (fun p => p.1) := by
  unfold upsert
  rw [if_pos h, List.map_map]
  apply List.map_congr_left
  intro p _
  by_cases hk : p.1 = k
  · simp only [Function.comp]
    rw [if_pos hk]
    exact hk.symm
  · simp only [Function.comp]
    rw [if_neg hk]

theorem mem_upsert {rm : List (String × Nat)} {k : String} {v : Nat}
    {p : String × Nat} (h : p ∈ upsert rm k v) :
    p = (k, v) ∨ p ∈ rm := by
  unfold upsert at h
  by_cases hf : (rm.find? (fun q => q.1 = k)).isSome
  · rw [if_pos hf, List.mem_map] at h
    obtain ⟨q, hq, hpq⟩ := h
    by_cases hk : q.1 = k
    · rw [if_pos hk] at hpq
      exact Or.inl hpq.symm
    · rw [if_neg hk] at hpq
      exact Or.inr (hpq ▸ hq)
  · rw [if_neg hf, List.mem_append] at h
    rcases h with h | h
    · exact Or.inr h
    · rw [List.mem_singleton] at h
      exact Or.inl h

theorem buildFold_congr (g g' : Grid) :
    ∀ (L : List Nat), (∀ r ∈ L, rowKeyAt g' r = rowKeyAt g r) →
      ∀ acc,
        L.foldl (fun rm r => match rowKeyAt g' r with
          | some k => upsert rm k r
          | none => rm) acc =
        L.foldl (fun rm r => match rowKeyAt g r with
          | some k => upsert rm k r
          | none => rm) acc := by
  intro L
  induction L with
  | nil => intro _ acc; rfl
  | cons a t ih =>
    intro h acc
    rw [List.foldl_cons, List.foldl_cons, h a (List.mem_cons_self a t)]
    exact ih (fun r hr => h r (List.mem_cons_of_mem a hr)) _

theorem buildFold_inv (g : Grid) :
    ∀ (L : List Nat) (acc : List (String × Nat)),
      (∀ r ∈ L, 2 ≤ r ∧ r ≤ maxRow g) →
      (∀ p ∈ acc, 2 ≤ p.2 ∧ p.2 ≤ maxRow g ∧ rowKeyAt g p.2 = some p.1) →
      ((acc.map (fun p => p.1)).Nodup) →
      (∀ p ∈ (L.foldl (fun rm r => match rowKeyAt g r with
          | some k => upsert rm k r
          | none => rm) acc),
        2 ≤ p.2 ∧ p.2 ≤ maxRow g ∧ rowKeyAt g p.2 = some p.1) ∧
      (((L.foldl (fun rm r => match rowKeyAt g r with
          | some k => upsert rm k r
          | none => rm) acc).map (fun p => p.1)).Nodup) ∧
      (∀ k, k ∈ acc.map (fun p => p.1) →
        k ∈ (L.foldl (fun rm r => match rowKeyAt g r with
          | some k => upsert rm k r
          | none => rm) acc).map (fun p => p.1)) ∧
      (∀ r ∈ L, ∀ k, rowKeyAt g r = some k →
        k ∈ (L.foldl (fun rm r => match rowKeyAt g r with
          | some k => upsert rm k r
          | none => rm) acc).map (fun p => p.1)) := by
  intro L
  induction L with
  | nil =>
    intro acc _ hpt hnd
    refine ⟨hpt, hnd, fun k hk => hk, fun r hr => absurd hr (List.not_mem_nil r)⟩
  | cons a t ih =>
    intro acc hL hpt hnd
    have ha := hL a (List.mem_cons_self a t)
    have hLt : ∀ r ∈ t, 2 ≤ r ∧ r ≤ maxRow g :=
      fun r hr => hL r (List.mem_cons_of_mem a hr)
    rw [List.foldl_cons]
    cases hk : rowKeyAt g a with
    | none =>
      obtain ⟨h1, h2, h3, h4⟩ := ih acc hLt hpt hnd
      refine ⟨h1, h2, h3, ?_⟩
      intro r hr k hkr
      rcases List.mem_cons.mp hr with rfl | hr
      · rw [hk] at hkr; exact absurd hkr (by simp)
      · exact h4 r hr k hkr
    | some k0 =>
      have hpt' : ∀ p ∈ upsert acc k0 a,
          2 ≤ p.2 ∧ p.2 ≤ maxRow g ∧ rowKeyAt g p.2 = some p.1 := by
        intro p hp
        rcases mem_upsert hp with rfl | hp
        · exact ⟨ha.1, ha.2, hk⟩
        · exact hpt p hp
      have hnd' : ((upsert acc k0 a).map (fun p => p.1)).Nodup := by
        by_cases hf : (acc.find? (fun p => p.1 = k0)).isSome
        · rw [upsert_found_keys a hf]; exact hnd
        · rw [upsert_of_not_found a (Option.not_isSome_iff_eq_none.mp hf),
            List.map_append]
          rw [List.nodup_append]
          refine ⟨hnd, List.nodup_singleton _, ?_⟩
          intro x hx hx1
          rw [List.map_singleton, List.mem_singleton] at hx1
          subst hx1
          exact hf ((keyMem_iff acc x).mpr hx)
      have hmem0 : k0 ∈ (upsert acc k0 a).map (fun p => p.1) := by
        by_cases hf : (acc.find? (fun p => p.1 = k0)).isSome
        · rw [upsert_found_keys a hf]
          exact (keyMem_iff acc k0).mp hf
        · rw [upsert_of_not_found a (Option.not_isSome_iff_eq_none.mp hf),
            List.map_append, List.mem_append, List.map_singleton]
          exact Or.inr (List.mem_singleton_self k0)
      have hmono : ∀ k, k ∈ acc.map (fun p => p.1) →
          k ∈ (upsert acc k0 a).map (fun p => p.1) := by
        intro k hkm
        by_cases hf : (acc.find? (fun p => p.1 = k0)).isSome
        · rw [upsert_found_keys a hf]; exact hkm
        · rw [upsert_of_not_found a (Option.not_isSome_iff_eq_none.mp hf),
            List.map_append, List.mem_append]
          exact Or.inl hkm
      obtain ⟨h1, h2, h3, h4⟩ := ih (upsert acc k0 a) hLt hpt' hnd'
      refine ⟨h1, h2, fun k hkm => h3 k (hmono k hkm), ?_⟩
      intro r hr k hkr
      rcases List.mem_cons.mp hr with rfl | hr
      · rw [hk] at hkr
        have : k0 = k := by injection hkr
        subst this
        exact h3 k0 hmem0
      · exact h4 r hr k hkr

theorem buildRowMap_inv (g : Grid) :
    (∀ p ∈ buildRowMap g, 2 ≤ p.2 ∧ p.2 ≤ maxRow g ∧
      rowKeyAt g p.2 = some p.1) ∧
    ((buildRowMap g).map (fun p => p.1)).Nodup ∧
    (∀ r k, 2 ≤ r → r ≤ maxRow g → rowKeyAt g r = some k →
      k ∈ (buildRowMap g).map (fun p => p.1)) := by
  have hmr := maxRow_pos g
  have hL : ∀ r ∈ List.range' 2 (maxRow g - 1), 2 ≤ r ∧ r ≤ maxRow g := by
    intro r hr
    have := List.mem_range'_1.mp hr
    omega
  obtain ⟨h1, h2, _, h4⟩ := buildFold_inv g (List.range' 2 (maxRow g - 1)) []
    hL (by intro p hp; exact absurd hp (List.not_mem_nil p)) List.nodup_nil
  refine ⟨h1, h2, ?_⟩
  intro r k hr2 hrle hkr
  have hrm : r ∈ List.range' 2 (maxRow g - 1) := by
    apply List.mem_range'_1.mpr
    omega
  exact h4 r hrm k hkr

theorem buildRowMap_congr (g g' : Grid) (hmax : maxRow g' = maxRow g)
    (h : ∀ r, 2 ≤ r → r ≤ maxRow g → rowKeyAt g' r = rowKeyAt g r) :
    buildRowMap g' = buildRowMap g := by
  unfold buildRowMap
  rw [hmax]
  apply buildFold_congr
  intro r hr
  have := List.mem_range'_1.mp hr
  have hmr := maxRow_pos g
  exact h r this.1 (by omega)

theorem buildRowMap_snoc (g : Grid) (s : String) (k : String)
    (hkey : rowKeyAt (setCell g (maxRow g + 1) 1 (CellVal.vStr s))
      (maxRow g + 1) = some k)
    (hnew : (buildRowMap g).find? (fun p => p.1 = k) = none) :
    buildRowMap (setCell g (maxRow g + 1) 1 (CellVal.vStr s)) =
      buildRowMap g ++ [(k, maxRow g + 1)] := by
  have hmr := maxRow_pos g
  have hmax : maxRow (setCell g (maxRow g + 1) 1 (CellVal.vStr s)) =
      maxRow g + 1 := by
    rw [maxRow_setCell _ _ _ _ (by omega)]
    omega
  have hcongr : ∀ r ∈ List.range' 2 (maxRow g - 1),
      rowKeyAt (setCell g (maxRow g + 1) 1 (CellVal.vStr s)) r =
        rowKeyAt g r := by
    intro r hr
    have := List.mem_range'_1.mp hr
    apply rowKeyAt_congr
    exact getCell_setCell_ne g (maxRow g + 1) 1 r 1 _ (by omega) (by omega)
      (by omega) (by omega) (Or.inl (by omega))
  unfold buildRowMap
  rw [hmax]
  have hrange : List.range' 2 (maxRow g + 1 - 1) =
      List.range' 2 (maxRow g - 1) ++ [maxRow g + 1] := by
    have h1 : maxRow g + 1 - 1 = (maxRow g - 1) + 1 := by omega
    rw [h1, List.range'_concat]
    have h2 : 2 + 1 * (maxRow g - 1) = maxRow g + 1 := by omega
    rw [h2]
  rw [hrange, List.foldl_append]
  rw [buildFold_congr g (setCell g (maxRow g + 1) 1 (CellVal.vStr s)) _ hcongr]
  rw [List.foldl_cons, List.foldl_nil, hkey]
  exact upsert_of_not_found _ hnew

theorem resolveRows_cons (att : Grid) (rm : List (String × Nat))
    (e : RegEntry) (rest : List RegEntry) :
    resolveRows att rm (e :: rest) =
      (if (rm.find? (fun p => p.1 = e.1)).isSome then
        resolveRows att rm rest
      else
        resolveRows (find_or_create_student_row att e.2.1).1
          (upsert rm e.1 (find_or_create_student_row att e.2.1).2) rest) := by
  unfold resolveRows
  rw [List.foldl_cons]
  by_cases hf : (rm.find? (fun p => p.1 = e.1)).isSome
  · rw [if_pos hf]
    simp only [hf, if_true]
  · rw [if_neg hf]
    simp only [hf]
    rw [if_neg Bool.false_ne_true]

theorem resolveRows_all_found :
    ∀ (reg : List RegEntry) (att : Grid) (rm : List (String × Nat)),
      (∀ e ∈ reg, ((rm.find? (fun p => p.1 = e.1)).isSome)) →
      resolveRows att rm reg = (att, rm) := by
  intro reg
  induction reg with
  | nil => intro att rm _; rfl
  | cons e rest ih =>
    intro att rm h
    rw [resolveRows_cons, if_pos (h e (List.mem_cons_self e rest))]
    exact ih att rm (fun x hx => h x (List.mem_cons_of_mem e hx))

theorem resolveRows_inv :
    ∀ (reg : List RegEntry),
      (∀ e ∈ reg, casefold (pyStrip e.2.1) = e.1 ∧ pyStrip e.2.1 ≠ "") →
      ∀ (att : Grid) (rm : List (String × Nat)), rm = buildRowMap att →
        (resolveRows att rm reg).2 = buildRowMap (resolveRows att rm reg).1 ∧
        (∀ e ∈ reg, e.1 ∈ (resolveRows att rm reg).2.map (fun p => p.1)) ∧
        (∀ k, k ∈ rm.map (fun p => p.1) →
          k ∈ (resolveRows att rm reg).2.map (fun p => p.1)) ∧
        (∀ r c, 1 ≤ r → 1 ≤ c → r ≤ maxRow att →
          getCell (resolveRows att rm reg).1 r c = getCell att r c) ∧
        maxRow att ≤ maxRow (resolveRows att rm reg).1 := by
  intro reg
  induction reg with
  | nil =>
    intro _ att rm hrm
    exact ⟨hrm, by intro e he; exact absurd he (List.not_mem_nil e),
      fun k hk => hk, fun r c _ _ _ => rfl, le_refl _⟩
  | cons e rest ih =>
    intro hsh att rm hrm
    obtain ⟨hek, hene⟩ := hsh e (List.mem_cons_self e rest)
    have hshr : ∀ x ∈ rest, casefold (pyStrip x.2.1) = x.1 ∧ pyStrip x.2.1 ≠ "" :=
      fun x hx => hsh x (List.mem_cons_of_mem e hx)
    have hmr := maxRow_pos att
    by_cases hf : (rm.find? (fun p => p.1 = e.1)).isSome
    · rw [resolveRows_cons, if_pos hf]
      obtain ⟨h1, h2, h3, h4, h5⟩ := ih hshr att rm hrm
      refine ⟨h1, ?_, h3, h4, h5⟩
      intro x hx
      rcases List.mem_cons.mp hx with rfl | hx
      · exact h3 x.1 ((keyMem_iff rm x.1).mp hf)
      · exact h2 x hx
    · cases hfind : (List.range' 2 (maxRow att - 1)).find?
          (isStudentRow att (casefold (pyStrip e.2.1))) with
      | some rstar =>
        exfalso
        obtain ⟨hge, hlt, hpred, _⟩ := find?_range'_some _ _ _ hfind
        have hkeyr : rowKeyAt att rstar = some e.1 := by
          have := of_decide_eq_true hpred
          rw [hek] at this
          exact this
        have hcomp := (buildRowMap_inv att).2.2 rstar e.1 hge (by omega) hkeyr
        rw [← hrm] at hcomp
        exact hf ((keyMem_iff rm e.1).mpr hcomp)
      | none =>
        have hfr : find_or_create_student_row att e.2.1 =
            (setCell att (maxRow att + 1) 1 (CellVal.vStr (pyStrip e.2.1)),
              maxRow att + 1) := by
          unfold find_or_create_student_row
          rw [hfind]
        have hget : getCell
            (setCell att (maxRow att + 1) 1 (CellVal.vStr (pyStrip e.2.1)))
            (maxRow att + 1) 1 = CellVal.vStr (pyStrip e.2.1) :=
          getCell_setCell_same att _ 1 _ (by omega) (by omega)
        have hkey : rowKeyAt
            (setCell att (maxRow att + 1) 1 (CellVal.vStr (pyStrip e.2.1)))
            (maxRow att + 1) = some e.1 := by
          unfold rowKeyAt
          rw [hget]
          have htr : truthy (CellVal.vStr (pyStrip e.2.1)) = true := by
            simp only [truthy]
            exact decide_eq_true hene
          rw [htr, if_pos rfl]
          show some (casefold (pyStrip (pyStrip e.2.1))) = some e.1
          rw [pyStrip_idem, hek]
        have hnone : rm.find? (fun p => p.1 = e.1) = none :=
          Option.not_isSome_iff_eq_none.mp hf
        have hsnoc : buildRowMap
            (setCell att (maxRow att + 1) 1 (CellVal.vStr (pyStrip e.2.1))) =
            buildRowMap att ++ [(e.1, maxRow att + 1)] :=
          buildRowMap_snoc att (pyStrip e.2.1) e.1 hkey (hrm ▸ hnone)
        have hrm' : upsert rm e.1 (maxRow att + 1) = buildRowMap
            (setCell att (maxRow att + 1) 1 (CellVal.vStr (pyStrip e.2.1))) := by
          rw [upsert_of_not_found _ hnone, hsnoc, hrm]
        have hmax' : maxRow
            (setCell att (maxRow att + 1) 1 (CellVal.vStr (pyStrip e.2.1))) =
            maxRow att + 1 := by
          rw [maxRow_setCell _ _ _ _ (by omega)]
          omega
        have hstep : resolveRows att rm (e :: rest) =
            resolveRows
              (setCell att (maxRow att + 1) 1 (CellVal.vStr (pyStrip e.2.1)))
              (upsert rm e.1 (maxRow att + 1)) rest := by
          rw [resolveRows_cons, if_neg hf, hfr]
        obtain ⟨h1, h2, h3, h4, h5⟩ := ih hshr
          (setCell att (maxRow att + 1) 1 (CellVal.vStr (pyStrip e.2.1)))
          (upsert rm e.1 (maxRow att + 1)) hrm'
        have hupkeys : (upsert rm e.1 (maxRow att + 1)).map (fun p => p.1) =
            rm.map (fun p => p.1) ++ [e.1] := by
          rw [upsert_of_not_found _ hnone, List.map_append]
          rfl
        rw [hstep]
        refine ⟨h1, ?_, ?_, ?_, ?_⟩
        · intro x hx
          rcases List.mem_cons.mp hx with rfl | hx
          · apply h3
            rw [hupkeys, List.mem_append]
            exact Or.inr (List.mem_singleton_self x.1)
          · exact h2 x hx
        · intro k hk
          apply h3
          rw [hupkeys, List.mem_append]
          exact Or.inl hk
        · intro r c hr hc hle
          rw [h4 r c hr hc (by omega)]
          exact getCell_setCell_ne att (maxRow att + 1) 1 r c _ (by omega)
            (by omega) hr hc (Or.inl (by omega))
        · calc maxRow att ≤ maxRow att + 1 := by omega
            _ = maxRow (setCell att (maxRow att + 1) 1
                (CellVal.vStr (pyStrip e.2.1))) := hmax'.symm
            _ ≤ _ := h5

theorem finFold_spec (now : MT) (lbl : String) (col : Nat)
    (existing : List (String × String)) (rm : List (String × Nat))
    (att2 : Grid) (hcol : 2 ≤ col) :
    ∀ (reg : List RegEntry),
      (reg.map (fun e => e.1)).Nodup →
      (∀ e ∈ reg, 2 ≤ rowOf rm e.1 ∧
        rowKeyAt att2 (rowOf rm e.1) = some e.1) →
      ∀ (att log : Grid),
        (∀ r, 1 ≤ r → rowKeyAt att r = rowKeyAt att2 r) →
        (∀ e ∈ reg, getCell att (rowOf rm e.1) col =
          getCell att2 (rowOf rm e.1) col) →
        (∀ e ∈ reg, rowOf rm e.1 ≤ maxRow att) →
        (reg.foldl (finStep now lbl col existing rm) (att, log)).2 =
          log ++ (reg.filter (fun e => decide ((lbl, e.1) ∉ existing))).map
            (fun e => logRowFor now lbl e (getCell att2 (rowOf rm e.1) col)) ∧
        (∀ e ∈ reg,
          getCell (reg.foldl (finStep now lbl col existing rm) (att, log)).1
              (rowOf rm e.1) col =
            (if presentCond (getCell att2 (rowOf rm e.1) col) then
              getCell att2 (rowOf rm e.1) col
            else CellVal.vStr "A")) ∧
        (∀ r c, 1 ≤ r → 1 ≤ c → (c ≠ col ∨ ∀ e ∈ reg, r ≠ rowOf rm e.1) →
          getCell (reg.foldl (finStep now lbl col existing rm) (att, log)).1
            r c = getCell att r c) ∧
        (∀ r, 1 ≤ r →
          rowKeyAt (reg.foldl (finStep now lbl col existing rm)
            (att, log)).1 r = rowKeyAt att r) ∧
        maxRow (reg.foldl (finStep now lbl col existing rm) (att, log)).1 =
          maxRow att := by
  intro reg
  induction reg with
  | nil =>
    intro _ _ att log _ _ _
    refine ⟨by simp, ?_, fun r c _ _ _ => rfl, fun r _ => rfl, rfl⟩
    intro e he
    exact absurd he (List.not_mem_nil e)
  | cons e rest ih =>
    intro hnd hrow att log hkeysag hag hle
    rw [List.map_cons, List.nodup_cons] at hnd
    obtain ⟨hnotin, hndrest⟩ := hnd
    obtain ⟨hre2, hrek⟩ := hrow e (List.mem_cons_self e rest)
    have hrowr : ∀ x ∈ rest, 2 ≤ rowOf rm x.1 ∧
        rowKeyAt att2 (rowOf rm x.1) = some x.1 :=
      fun x hx => hrow x (List.mem_cons_of_mem e hx)
    have hdisj : ∀ x ∈ rest, rowOf rm x.1 ≠ rowOf rm e.1 := by
      intro x hx heq
      have h1 := (hrowr x hx).2
      rw [heq, hrek] at h1
      have hxe : x.1 = e.1 := Option.some.inj h1.symm
      exact hnotin (List.mem_map.mpr ⟨x, hx, hxe⟩)
    have hv : getCell att (rowOf rm e.1) col =
        getCell att2 (rowOf rm e.1) col :=
      hag e (List.mem_cons_self e rest)
    have hrele : rowOf rm e.1 ≤ maxRow att := hle e (List.mem_cons_self e rest)
    have hstep : finStep now lbl col existing rm (att, log) e =
        (if presentCond (getCell att (rowOf rm e.1) col) then att
         else setCell att (rowOf rm e.1) col (CellVal.vStr "A"),
         if (lbl, e.1) ∈ existing then log
         else appendRow log
           (logRowFor now lbl e (getCell att (rowOf rm e.1) col))) := rfl
    rw [List.foldl_cons, hstep, hv]
    by_cases hpres : presentCond (getCell att2 (rowOf rm e.1) col)
    · rw [if_pos hpres]
      obtain ⟨ihlog, ihcell, ihframe, ihkeys, ihmax⟩ := ih hndrest hrowr att
        (if (lbl, e.1) ∈ existing then log
         else appendRow log
           (logRowFor now lbl e (getCell att2 (rowOf rm e.1) col)))
        hkeysag (fun x hx => hag x (List.mem_cons_of_mem e hx))
        (fun x hx => hle x (List.mem_cons_of_mem e hx))
      refine ⟨?_, ?_, ?_, ihkeys, ihmax⟩
      · rw [ihlog, List.filter_cons]
        by_cases hmem : (lbl, e.1) ∈ existing
        · rw [if_pos hmem, decide_eq_false (not_not_intro hmem),
            if_neg Bool.false_ne_true]
        · rw [if_neg hmem, decide_eq_true hmem, if_pos rfl, List.map_cons]
          show (log ++ [logRowFor now lbl e
              (getCell att2 (rowOf rm e.1) col)]) ++ _ = _
          rw [List.append_assoc, List.singleton_append]
      · intro x hx
        rcases List.mem_cons.mp hx with rfl | hx
        · rw [ihframe (rowOf rm x.1) col (by omega) (by omega)
            (Or.inr (fun y hy => (hdisj y hy).symm)), hv, if_pos hpres]
        · exact ihcell x hx
      · intro r c hr hc hside
        apply ihframe r c hr hc
        rcases hside with h | h
        · exact Or.inl h
        · exact Or.inr (fun x hx => h x (List.mem_cons_of_mem e hx))
    · rw [if_neg hpres]
      have hmaxE : maxRow (setCell att (rowOf rm e.1) col (CellVal.vStr "A")) =
          maxRow att := by
        rw [maxRow_setCell _ _ _ _ (by omega)]
        omega
      have hkeysE : ∀ r, 1 ≤ r →
          rowKeyAt (setCell att (rowOf rm e.1) col (CellVal.vStr "A")) r =
            rowKeyAt att r := by
        intro r hr
        apply rowKeyAt_congr
        exact getCell_setCell_ne att (rowOf rm e.1) col r 1 _ (by omega)
          (by omega) hr (by omega) (Or.inr (by omega))
      obtain ⟨ihlog, ihcell, ihframe, ihkeys, ihmax⟩ := ih hndrest hrowr
        (setCell att (rowOf rm e.1) col (CellVal.vStr "A"))
        (if (lbl, e.1) ∈ existing then log
         else appendRow log
           (logRowFor now lbl e (getCell att2 (rowOf rm e.1) col)))
        (fun r hr => (hkeysE r hr).trans (hkeysag r hr))
        (by
          intro x hx
          have hx2 := (hrowr x hx).1
          rw [getCell_setCell_ne att (rowOf rm e.1) col (rowOf rm x.1) col _
            (by omega) (by omega) (by omega) (by omega)
            (Or.inl (hdisj x hx).symm)]
          exact hag x (List.mem_cons_of_mem e hx))
        (by
          intro x hx
          rw [hmaxE]
          exact hle x (List.mem_cons_of_mem e hx))
      refine ⟨?_, ?_, ?_, ?_, ?_⟩
      · rw [ihlog, List.filter_cons]
        by_cases hmem : (lbl, e.1) ∈ existing
        · rw [if_pos hmem, decide_eq_false (not_not_intro hmem),
            if_neg Bool.false_ne_true]
        · rw [if_neg hmem, decide_eq_true hmem, if_pos rfl, List.map_cons]
          show (log ++ [logRowFor now lbl e
              (getCell att2 (rowOf rm e.1) col)]) ++ _ = _
          rw [List.append_assoc, List.singleton_append]
      · intro x hx
        rcases List.mem_cons.mp hx with rfl | hx
        · rw [ihframe (rowOf rm x.1) col (by omega) (by omega)
            (Or.inr (fun y hy => (hdisj y hy).symm)),
            getCell_setCell_same att _ col _ (by omega) (by omega),
            if_neg hpres]
        · exact ihcell x hx
      · intro r c hr hc hside
        have hstep2 : getCell
            (setCell att (rowOf rm e.1) col (CellVal.vStr "A")) r c =
            getCell att r c := by
          apply getCell_setCell_ne att (rowOf rm e.1) col r c _ (by omega)
            (by omega) hr hc
          rcases hside with h | h
          · exact Or.inr (Ne.symm h)
          · exact Or.inl (Ne.symm (h e (List.mem_cons_self e rest)))
        rw [← hstep2]
        apply ihframe r c hr hc
        rcases hside with h | h
        · exact Or.inl h
        · exact Or.inr (fun x hx => h x (List.mem_cons_of_mem e hx))
      · intro r hr
        rw [ihkeys r hr]
        exact hkeysE r hr
      · rw [ihmax, hmaxE]

theorem load_entries_shape (rows : List (List CellVal)) :
    ∀ (acc : List RegEntry × List String),
      (∀ e ∈ acc.1, casefold (pyStrip e.2.1) = e.1 ∧ pyStrip e.2.1 = e.2.1) →
      ∀ e ∈ (rows.foldl loadStep acc).1,
        casefold (pyStrip e.2.1) = e.1 ∧ pyStrip e.2.1 = e.2.1 := by
  induction rows with
  | nil => intro acc h; exact h
  | cons row rest ih =>
    intro acc h
    rw [List.foldl_cons]
    rcases hrow : rowEntry row with _ | ⟨name, status⟩
    · have hstep : loadStep acc row = acc := by unfold loadStep; rw [hrow]
      rw [hstep]
      exact ih acc h
    · by_cases hdup : (acc.1.find? (fun e => e.1 = casefold name)).isSome
      · have hstep : loadStep acc row = acc := by
          unfold loadStep
          rw [hrow]
          simp only [hdup, if_true]
        rw [hstep]
        exact ih acc h
      · have hstep : loadStep acc row =
            (acc.1 ++ [(casefold name, name, status)], acc.2 ++ [name]) := by
          unfold loadStep
          rw [hrow]
          simp [hdup]
        rw [hstep]
        apply ih
        intro e he
        rcases List.mem_append.mp he with he | he
        · exact h e he
        · rw [List.mem_singleton] at he
          subst he
          have hname : pyStrip name = name := by
            unfold rowEntry at hrow
            by_cases htr : truthy (row.getD 0 CellVal.vNone)
            · rw [if_pos htr] at hrow
              have : pyStrip (cellStr (row.getD 0 CellVal.vNone)) = name := by
                injection hrow with h'
                exact congrArg Prod.fst h'
              rw [← this, pyStrip_idem]
            · rw [if_neg htr] at hrow
              exact absurd hrow (by simp)
          exact ⟨by rw [hname], hname⟩

theorem finalize_eq (st : WebState) (now : MT) :
    finalize_today st now =
      ({ students := get_or_create_students_sheet st.students,
         att := ((finReg st).foldl
           (finStep now now.dateLabel (finCol st now)
             (existingSet (fixLogHeader st.log)) (finRM st now))
           (finAtt2 st now, fixLogHeader st.log)).1,
         log := ((finReg st).foldl
           (finStep now now.dateLabel (finCol st now)
             (existingSet (fixLogHeader st.log)) (finRM st now))
           (finAtt2 st now, fixLogHeader st.log)).2,
         fills := st.fills }, now.dateLabel) := rfl

theorem finalize_spec (st : WebState) (now : MT)
    (hlbl : pyStrip now.dateLabel = now.dateLabel)
    (hlblne : now.dateLabel ≠ "")
    (hkeys : ∀ e ∈ finReg st, e.1 ≠ "") :
    finRM st now = buildRowMap (finAtt2 st now) ∧
    (∀ e ∈ finReg st, 2 ≤ finRow st now e.1 ∧
      finRow st now e.1 ≤ maxRow (finAtt2 st now) ∧
      rowKeyAt (finAtt2 st now) (finRow st now e.1) = some e.1) ∧
    (finalize_today st now).1.log =
      fixLogHeader st.log ++
        ((finReg st).filter
          (fun e => decide ((now.dateLabel, e.1) ∉
            existingSet (fixLogHeader st.log)))).map
        (fun e => logRowFor now now.dateLabel e (finVal st now e.1)) ∧
    (∀ e ∈ finReg st,
      getCell (finalize_today st now).1.att (finRow st now e.1)
          (finCol st now) =
        (if presentCond (finVal st now e.1) then finVal st now e.1
         else CellVal.vStr "A")) ∧
    (∀ r c, 1 ≤ r → 1 ≤ c →
      (c ≠ finCol st now ∨ ∀ e ∈ finReg st, r ≠ finRow st now e.1) →
      getCell (finalize_today st now).1.att r c =
        getCell (finAtt2 st now) r c) ∧
    (∀ r, 1 ≤ r → rowKeyAt (finalize_today st now).1.att r =
      rowKeyAt (finAtt2 st now) r) ∧
    maxRow (finalize_today st now).1.att = maxRow (finAtt2 st now) ∧
    2 ≤ finCol st now ∧
    isDateCol (finAtt1 st now) now.dateLabel (finCol st now) = true ∧
    (finalize_today st now).1.students =
      get_or_create_students_sheet st.students ∧
    (∀ r c, 1 ≤ r → 1 ≤ c → r ≤ maxRow (finAtt1 st now) →
      getCell (finAtt2 st now) r c = getCell (finAtt1 st now) r c) ∧
    maxRow (finAtt1 st now) ≤ maxRow (finAtt2 st now) := by
  have hshape : ∀ e ∈ finReg st,
      casefold (pyStrip e.2.1) = e.1 ∧ pyStrip e.2.1 = e.2.1 :=
    load_entries_shape ((get_or_create_students_sheet st.students).drop 1)
      ([], []) (by intro e he; exact absurd he (List.not_mem_nil e))
  have hsh : ∀ e ∈ finReg st,
      casefold (pyStrip e.2.1) = e.1 ∧ pyStrip e.2.1 ≠ "" := by
    intro e he
    obtain ⟨h1, _⟩ := hshape e he
    refine ⟨h1, ?_⟩
    intro hc
    rw [hc] at h1
    exact hkeys e he ((by decide : casefold "" = "") ▸ h1).symm
  have hnd : ((finReg st).map (fun e => e.1)).Nodup :=
    (load_fold_inv ((get_or_create_students_sheet st.students).drop 1)
      ([], []) rfl List.nodup_nil).2
  obtain ⟨hc2, hEpres, hEcol, hEfail, hEmax⟩ :=
    ensure_spec (fixAttHeader st.att) now.dateLabel hlbl hlblne
  obtain ⟨hrm_eq, hmem, hmono, hframe_res, hmax_res⟩ :=
    resolveRows_inv (finReg st) hsh (finAtt1 st now)
      (buildRowMap (finAtt1 st now)) rfl
  have hrowfacts : ∀ e ∈ finReg st, 2 ≤ finRow st now e.1 ∧
      finRow st now e.1 ≤ maxRow (finAtt2 st now) ∧
      rowKeyAt (finAtt2 st now) (finRow st now e.1) = some e.1 := by
    intro e he
    have hsome : ((finRM st now).find? (fun p => p.1 = e.1)).isSome :=
      (keyMem_iff (finRM st now) e.1).mpr (hmem e he)
    obtain ⟨p, hp⟩ := Option.isSome_iff_exists.mp hsome
    obtain ⟨hpk, hpm⟩ := find?_key_eq hp
    have hpm2 : p ∈ buildRowMap (finAtt2 st now) := hrm_eq ▸ hpm
    obtain ⟨h2, hle, hkey⟩ := (buildRowMap_inv (finAtt2 st now)).1 p hpm2
    have hrowe : finRow st now e.1 = p.2 := by
      unfold finRow rowOf
      rw [hp]
      rfl
    rw [hrowe]
    exact ⟨h2, hle, by rw [hkey, hpk]⟩
  obtain ⟨hlog, hcell, hframe, hkeysF, hmaxF⟩ :=
    finFold_spec now now.dateLabel (finCol st now)
      (existingSet (fixLogHeader st.log)) (finRM st now) (finAtt2 st now)
      hc2 (finReg st) hnd
      (fun e he => ⟨(hrowfacts e he).1, (hrowfacts e he).2.2⟩)
      (finAtt2 st now) (fixLogHeader st.log)
      (fun r _ => rfl) (fun e _ => rfl)
      (fun e he => (hrowfacts e he).2.1)
  exact ⟨hrm_eq, hrowfacts, hlog, hcell, hframe, hkeysF, hmaxF, hc2, hEcol,
    rfl, hframe_res, hmax_res⟩

/-- C2 (amended): for a trim-invariant, non-empty date label and a registry
whose keys are all non-empty, `finalize_today` resolves today's column
(2-indexed, carrying the label), gives every registry student a matrix row
keyed by their casefolded name, appends to the log exactly one `P`/`A` row
per registry student whose `(date label, key)` pair is not already logged
— never writing a row for a pair that already has one — and sets each
student's cell in today's column to `"A"` when it does not look present
(unset, stripping to empty, or stripping-and-uppercasing to `"A"`), while
leaving present-looking cells unchanged.  The appended `P` row's timestamp
combines today's date with the clock time stored in the cell only when the
cell holds a time value; for any other present-looking value the timestamp
is Python `None` (not a combined timestamp, contra the original claim),
and `A` rows carry the empty-string timestamp. -/
theorem c2_theorem (st : WebState) (now : MT)
    (hlbl : pyStrip now.dateLabel = now.dateLabel)
    (hlblne : now.dateLabel ≠ "")
    (hkeys : ∀ e ∈ finReg st, e.1 ≠ "") :
    2 ≤ finCol st now ∧
    isDateCol (finAtt1 st now) now.dateLabel (finCol st now) = true ∧
    (∀ e ∈ finReg st, 2 ≤ finRow st now e.1 ∧
      rowKeyAt (finAtt2 st now) (finRow st now e.1) = some e.1) ∧
    (finalize_today st now).1.log =
      fixLogHeader st.log ++
        ((finReg st).filter
          (fun e => decide ((now.dateLabel, e.1) ∉
            existingSet (fixLogHeader st.log)))).map
        (fun e => logRowFor now now.dateLabel e (finVal st now e.1)) ∧
    (∀ e ∈ finReg st,
      getCell (finalize_today st now).1.att (finRow st now e.1)
          (finCol st now) =
        (if presentCond (finVal st now e.1) then finVal st now e.1
         else CellVal.vStr "A")) := by
  obtain ⟨_, hrowfacts, hlog, hcell, _, _, _, hc2, hEcol, _, _, _⟩ :=
    finalize_spec st now hlbl hlblne hkeys
  exact ⟨hc2, hEcol,
    fun e he => ⟨(hrowfacts e he).1, (hrowfacts e he).2.2⟩, hlog, hcell⟩

/-- C2 counterexample to the original claim's timestamp clause: a
present-looking cell that holds the plain string "x" (no clock time) makes
finalize append a `P` log row whose timestamp cell is Python `None` — not
a timestamp combining the current date with a time stored in the cell. -/
theorem c2_counterexample :
    (finalize_today
        ⟨[[CellVal.vStr "Name", CellVal.vStr "OfficialStatus"],
          [CellVal.vStr "Ann", CellVal.vStr "Registered"]],
         [[CellVal.vStr "Name", CellVal.vStr "10/12"],
          [CellVal.vStr "Ann", CellVal.vStr "x"]],
         [], []⟩ ⟨"10/12", 20261012, 17, 0, 0, 0⟩).1.log =
      [logHeader,
       [CellVal.vNone, CellVal.vStr "Ann", CellVal.vStr "Registered",
        CellVal.vStr "10/12", CellVal.vStr "P"]] := by
  decide

/-- Witness for C2 at a concrete store: one registered student "Ann" whose
cell for 10/12 holds a time value; the hypotheses of the amended theorem
hold by computation and the theorem's log clause applies. -/
theorem c2_witness :
    (finalize_today
        ⟨[[CellVal.vStr "Name", CellVal.vStr "OfficialStatus"],
          [CellVal.vStr "Ann", CellVal.vStr "Registered"]],
         [[CellVal.vStr "Name", CellVal.vStr "10/12"],
          [CellVal.vStr "Ann", CellVal.vTime 10 0 0 0]],
         [], []⟩ ⟨"10/12", 20261012, 17, 0, 0, 0⟩).1.log =
      fixLogHeader [] ++
        ((finReg ⟨[[CellVal.vStr "Name", CellVal.vStr "OfficialStatus"],
            [CellVal.vStr "Ann", CellVal.vStr "Registered"]],
          [[CellVal.vStr "Name", CellVal.vStr "10/12"],
            [CellVal.vStr "Ann", CellVal.vTime 10 0 0 0]],
          [], []⟩).filter
          (fun e => decide (("10/12", e.1) ∉ existingSet (fixLogHeader [])))).map
        (fun e => logRowFor ⟨"10/12", 20261012, 17, 0, 0, 0⟩ "10/12" e
          (finVal ⟨[[CellVal.vStr "Name", CellVal.vStr "OfficialStatus"],
              [CellVal.vStr "Ann", CellVal.vStr "Registered"]],
            [[CellVal.vStr "Name", CellVal.vStr "10/12"],
              [CellVal.vStr "Ann", CellVal.vTime 10 0 0 0]],
            [], []⟩ ⟨"10/12", 20261012, 17, 0, 0, 0⟩ e.1)) :=
  (c2_theorem ⟨[[CellVal.vStr "Name", CellVal.vStr "OfficialStatus"],
      [CellVal.vStr "Ann", CellVal.vStr "Registered"]],
    [[CellVal.vStr "Name", CellVal.vStr "10/12"],
      [CellVal.vStr "Ann", CellVal.vTime 10 0 0 0]],
    [], []⟩ ⟨"10/12", 20261012, 17, 0, 0, 0⟩
    (by decide) (by decide) (by decide)).2.2.2.1

theorem get_or_create_idem (g : Grid) :
    get_or_create_students_sheet (get_or_create_students_sheet g) =
      get_or_create_students_sheet g := by
  by_cases h : legacyShape g
  · have hg : get_or_create_students_sheet g = migrateStudents g := by
      unfold get_or_create_students_sheet
      rw [if_pos h]
    have hnd : (List.range' 2 (maxRow (migrateHeader g) - 1)).Nodup :=
      List.nodup_range' 2 (maxRow (migrateHeader g) - 1)
    have hpos : ∀ r ∈ List.range' 2 (maxRow (migrateHeader g) - 1), 2 ≤ r :=
      fun r hr => (List.mem_range'_1.mp hr).1
    obtain ⟨hA, _⟩ := migrate_fold_cells
      (List.range' 2 (maxRow (migrateHeader g) - 1)) (migrateHeader g) hnd hpos
    have hone : (1 : Nat) ∉ List.range' 2 (maxRow (migrateHeader g) - 1) := by
      intro hmem
      exact absurd (hpos 1 hmem) (by omega)
    have hmS : migrateStudents g =
        (List.range' 2 (maxRow (migrateHeader g) - 1)).foldl
          (fun gr r =>
            if truthy (getCell gr r 1) ∧ ¬ truthy (getCell gr r 2) then
              setCell gr r 2 (CellVal.vStr STATUS_REGISTERED)
            else gr)
          (migrateHeader g) := rfl
    have hA1 : getCell (migrateStudents g) 1 1 = CellVal.vStr "Name" := by
      rw [hmS, hA 1 1 (by omega) (by omega) (Or.inr (by omega)),
        migrateHeader_a1]
    have hB1 : getCell (migrateStudents g) 1 2 =
        CellVal.vStr "OfficialStatus" := by
      rw [hmS, hA 1 2 (by omega) (by omega) (Or.inl hone), migrateHeader_b1]
    have hcol : 2 ≤ maxCol (migrateStudents g) := by
      apply le_maxCol_of_getCell_ne _ 2 (by omega)
      rw [hB1]
      simp
    have hnot : ¬ legacyShape (migrateStudents g) := by
      unfold legacyShape
      rw [hA1, if_pos hcol, hB1]
      push_neg
      refine ⟨by simp, fun _ => by simp⟩
    rw [hg]
    unfold get_or_create_students_sheet
    rw [if_neg hnot]
  · have hg : get_or_create_students_sheet g = g := by
      unfold get_or_create_students_sheet
      rw [if_neg h]
    rw [hg, hg]

theorem getCell_append_le (g rows : Grid) (r c : Nat) (hr : 1 ≤ r)
    (hle : r ≤ g.length) : getCell (g ++ rows) r c = getCell g r c := by
  unfold getCell
  have h2 : (g ++ rows).getD (r-1) ([] : List CellVal) = g.getD (r-1) [] := by
    rw [List.getD_eq_getElem?_getD, List.getD_eq_getElem?_getD,
      List.getElem?_append_left (by omega)]
  rw [h2]

theorem getCell_nil (r c : Nat) : getCell ([] : Grid) r c = CellVal.vNone := by
  unfold getCell
  rw [List.getD_nil, List.getD_nil]

theorem ne_nil_of_A1 {g : Grid} (h : getCell g 1 1 ≠ CellVal.vNone) :
    g ≠ [] := by
  intro hg
  rw [hg, getCell_nil] at h
  exact h rfl

theorem fixAttHeader_of_ne {g : Grid} (h : getCell g 1 1 ≠ CellVal.vNone) :
    fixAttHeader g = g := by
  unfold fixAttHeader
  rw [if_neg h]

theorem fixLogHeader_of_ne {g : Grid} (h : getCell g 1 1 ≠ CellVal.vNone) :
    fixLogHeader g = g := by
  unfold fixLogHeader
  rw [if_neg h]

theorem fixAtt_A1 {g : Grid} (h : g = [] ∨ getCell g 1 1 ≠ CellVal.vNone) :
    getCell (fixAttHeader g) 1 1 ≠ CellVal.vNone := by
  rcases h with h | h
  · rw [h]
    decide
  · rw [fixAttHeader_of_ne h]
    exact h

theorem fixLog_A1 {g : Grid} (h : g = [] ∨ getCell g 1 1 ≠ CellVal.vNone) :
    getCell (fixLogHeader g) 1 1 ≠ CellVal.vNone := by
  rcases h with h | h
  · rw [h]
    decide
  · rw [fixLogHeader_of_ne h]
    exact h

theorem existingSet_append (g rows : Grid) (hg : g ≠ []) :
    existingSet (g ++ rows) =
      existingSet g ++ rows.filterMap pairOfLogRow := by
  unfold existingSet
  rw [List.drop_append_of_le_length (by
      cases g with
      | nil => exact absurd rfl hg
      | cons a t => simp),
    List.filterMap_append]

theorem presentCond_A : presentCond (CellVal.vStr "A") = false := by
  decide

theorem pairOf_logRowFor (now : MT) (lbl : String) (e : RegEntry)
    (v : CellVal) (hkey : casefold (pyStrip e.2.1) = e.1) (hkne : e.1 ≠ "")
    (hlblstrip : pyStrip lbl = lbl) (hlblne : lbl ≠ "") :
    pairOfLogRow (logRowFor now lbl e v) = some (lbl, e.1) := by
  have hstrne : pyStrip e.2.1 ≠ "" := by
    intro hc
    rw [hc] at hkey
    exact hkne ((by decide : casefold "" = "") ▸ hkey).symm
  have hoff : e.2.1 ≠ "" := by
    intro hc
    rw [hc] at hstrne
    exact hstrne (by decide)
  unfold pairOfLogRow logRowFor
  have h1 : [tsCellFor now v, CellVal.vStr e.2.1, CellVal.vStr e.2.2,
      CellVal.vStr lbl,
      CellVal.vStr (if presentCond v then "P" else "A")].getD 1
      CellVal.vNone = CellVal.vStr e.2.1 := rfl
  have h3 : [tsCellFor now v, CellVal.vStr e.2.1, CellVal.vStr e.2.2,
      CellVal.vStr lbl,
      CellVal.vStr (if presentCond v then "P" else "A")].getD 3
      CellVal.vNone = CellVal.vStr lbl := rfl
  rw [h1, h3]
  have htr1 : truthy (CellVal.vStr e.2.1) = true := by
    simp only [truthy]
    exact decide_eq_true hoff
  have htr3 : truthy (CellVal.vStr lbl) = true := by
    simp only [truthy]
    exact decide_eq_true hlblne
  rw [htr1, htr3, if_pos rfl, if_pos rfl]
  show (if casefold (pyStrip (cellStr (CellVal.vStr e.2.1))) ≠ "" ∧
      pyStrip (cellStr (CellVal.vStr lbl)) ≠ "" then
    some (pyStrip (cellStr (CellVal.vStr lbl)),
      casefold (pyStrip (cellStr (CellVal.vStr e.2.1))))
    else none) = some (lbl, e.1)
  show (if casefold (pyStrip e.2.1) ≠ "" ∧ pyStrip lbl ≠ "" then
    some (pyStrip lbl, casefold (pyStrip e.2.1)) else none) = some (lbl, e.1)
  rw [hkey, hlblstrip, if_pos ⟨hkne, hlblne⟩]

/-- C3 (amended): finalize is idempotent on stores whose attendance and
log sheets are empty or carry their header cell and whose registry keys
are all non-empty (a whitespace-only Students row defeats the log dedup,
see the counterexample), for a trim-invariant non-empty date label: a
second `finalize_today` on the same day appends no log rows, changes no
attendance cell (the absence marker is at most overwritten with itself),
and leaves the Students sheet unchanged. -/
theorem c3_theorem (st : WebState) (now : MT)
    (hlbl : pyStrip now.dateLabel = now.dateLabel)
    (hlblne : now.dateLabel ≠ "")
    (hkeys : ∀ e ∈ finReg st, e.1 ≠ "")
    (hatt : st.att = [] ∨ getCell st.att 1 1 ≠ CellVal.vNone)
    (hlog : st.log = [] ∨ getCell st.log 1 1 ≠ CellVal.vNone) :
    (finalize_today (finalize_today st now).1 now).1.log =
      (finalize_today st now).1.log ∧
    (∀ r c, 1 ≤ r → 1 ≤ c →
      getCell (finalize_today (finalize_today st now).1 now).1.att r c =
        getCell (finalize_today st now).1.att r c) ∧
    (finalize_today (finalize_today st now).1 now).1.students =
      (finalize_today st now).1.students := by
  obtain ⟨hrm_eq, hrowfacts, hlogF, hcellF, hframeF, hkeysF, hmaxF, hc2,
    hEcolA, hstud, hframe_res, hmax_res⟩ :=
    finalize_spec st now hlbl hlblne hkeys
  obtain ⟨hc2x, hEpres, hEcol, hEfail, hEmax⟩ :=
    ensure_spec (fixAttHeader st.att) now.dateLabel hlbl hlblne
  have hEpres' : ∀ r c, 1 ≤ r → 1 ≤ c → (r ≠ 1 ∨ c ≠ finCol st now) →
      getCell (finAtt1 st now) r c = getCell (fixAttHeader st.att) r c :=
    hEpres
  have hEfail' : ∀ x, 2 ≤ x → x < finCol st now →
      isDateCol (fixAttHeader st.att) now.dateLabel x = false := hEfail
  have hshape : ∀ e ∈ finReg st,
      casefold (pyStrip e.2.1) = e.1 ∧ pyStrip e.2.1 = e.2.1 :=
    load_entries_shape ((get_or_create_students_sheet st.students).drop 1)
      ([], []) (by intro e he; exact absurd he (List.not_mem_nil e))
  have hnd : ((finReg st).map (fun e => e.1)).Nodup :=
    (load_fold_inv ((get_or_create_students_sheet st.students).drop 1)
      ([], []) rfl List.nodup_nil).2
  have hA1att0 : getCell (fixAttHeader st.att) 1 1 ≠ CellVal.vNone :=
    fixAtt_A1 hatt
  have hA1att1 : getCell (finAtt1 st now) 1 1 ≠ CellVal.vNone := by
    rw [hEpres' 1 1 (by omega) (by omega) (Or.inr (by omega))]
    exact hA1att0
  have hA1att2 : getCell (finAtt2 st now) 1 1 ≠ CellVal.vNone := by
    rw [hframe_res 1 1 (by omega) (by omega) (maxRow_pos _)]
    exact hA1att1
  have hA1attF : getCell (finalize_today st now).1.att 1 1 ≠
      CellVal.vNone := by
    rw [hframeF 1 1 (by omega) (by omega) (Or.inl (by omega))]
    exact hA1att2
  have hfix2 : fixAttHeader (finalize_today st now).1.att =
      (finalize_today st now).1.att := fixAttHeader_of_ne hA1attF
  have hhdr : ∀ x, 1 ≤ x → x ≠ finCol st now →
      getCell (finalize_today st now).1.att 1 x =
        getCell (fixAttHeader st.att) 1 x := by
    intro x hx hne
    rw [hframeF 1 x (by omega) hx (Or.inl hne),
      hframe_res 1 x (by omega) hx (maxRow_pos _),
      hEpres' 1 x (by omega) hx (Or.inr hne)]
  have hhdrcol : getCell (finalize_today st now).1.att 1 (finCol st now) =
      getCell (finAtt1 st now) 1 (finCol st now) := by
    rw [hframeF 1 (finCol st now) (by omega) (by omega)
        (Or.inr (fun e he => by have := (hrowfacts e he).1; omega)),
      hframe_res 1 (finCol st now) (by omega) (by omega) (maxRow_pos _)]
  have hisDateF : isDateCol (finalize_today st now).1.att now.dateLabel
      (finCol st now) = true := by
    rw [isDateCol_congr hhdrcol]
    exact hEcolA
  have hcolle : finCol st now ≤ maxCol (finalize_today st now).1.att :=
    le_maxCol_of_getCell_ne _ _ (by omega) (isDateCol_ne_none hisDateF)
  have hmaxcolpos := maxCol_pos (finalize_today st now).1.att
  have hEfind2 : (List.range' 2
      (maxCol (finalize_today st now).1.att - 1)).find?
      (isDateCol (finalize_today st now).1.att now.dateLabel) =
      some (finCol st now) := by
    apply find?_range'_some_of _ _ _ hc2 (by omega) hisDateF
    intro x hx1 hx2
    rw [isDateCol_congr (hhdr x (by omega) (by omega))]
    exact hEfail' x hx1 hx2
  have hens2 : ensure_date_column (finalize_today st now).1.att
      now.dateLabel = ((finalize_today st now).1.att, finCol st now) :=
    ensure_eq_of_found hEfind2
  have hatt1eq : finAtt1 (finalize_today st now).1 now =
      (finalize_today st now).1.att := by
    show (ensure_date_column (fixAttHeader (finalize_today st now).1.att)
      now.dateLabel).1 = _
    rw [hfix2, hens2]
  have hcol2 : finCol (finalize_today st now).1 now = finCol st now := by
    show (ensure_date_column (fixAttHeader (finalize_today st now).1.att)
      now.dateLabel).2 = _
    rw [hfix2, hens2]
  have hbuild2 : buildRowMap (finalize_today st now).1.att = finRM st now := by
    rw [buildRowMap_congr (finAtt2 st now) (finalize_today st now).1.att
      hmaxF (fun r hr2 hrle => hkeysF r (by omega))]
    exact hrm_eq.symm
  have hfound : ∀ e ∈ finReg st,
      (((finRM st now).find? (fun p => p.1 = e.1)).isSome) := by
    intro e he
    obtain ⟨h2, hle, hkey⟩ := hrowfacts e he
    rw [hrm_eq]
    exact (keyMem_iff _ _).mpr
      ((buildRowMap_inv (finAtt2 st now)).2.2 (finRow st now e.1) e.1 h2
        hle hkey)
  have hres2 : resolveRows (finalize_today st now).1.att
      (buildRowMap (finalize_today st now).1.att) (finReg st) =
      ((finalize_today st now).1.att, finRM st now) := by
    rw [hbuild2]
    exact resolveRows_all_found (finReg st) _ _ hfound
  have hreg2 : finReg (finalize_today st now).1 = finReg st := by
    show (load_students_entries ((get_or_create_students_sheet
        (finalize_today st now).1.students).drop 1)).1 =
      (load_students_entries ((get_or_create_students_sheet
        st.students).drop 1)).1
    rw [hstud, get_or_create_idem]
  have hatt2eq : finAtt2 (finalize_today st now).1 now =
      (finalize_today st now).1.att := by
    show (resolveRows (finAtt1 (finalize_today st now).1 now)
      (buildRowMap (finAtt1 (finalize_today st now).1 now))
      (finReg (finalize_today st now).1)).1 = _
    rw [hatt1eq, hreg2, hres2]
  have hrm2 : finRM (finalize_today st now).1 now = finRM st now := by
    show (resolveRows (finAtt1 (finalize_today st now).1 now)
      (buildRowMap (finAtt1 (finalize_today st now).1 now))
      (finReg (finalize_today st now).1)).2 = _
    rw [hatt1eq, hreg2, hres2]
  have hA1log1 : getCell (fixLogHeader st.log) 1 1 ≠ CellVal.vNone :=
    fixLog_A1 hlog
  have hlog1ne : fixLogHeader st.log ≠ [] := ne_nil_of_A1 hA1log1
  have hlog1len : 1 ≤ (fixLogHeader st.log).length :=
    List.length_pos.mpr hlog1ne
  have hA1logF : getCell (finalize_today st now).1.log 1 1 ≠
      CellVal.vNone := by
    rw [hlogF, getCell_append_le _ _ 1 1 (by omega) hlog1len]
    exact hA1log1
  have hfixlog2 : fixLogHeader (finalize_today st now).1.log =
      (finalize_today st now).1.log := fixLogHeader_of_ne hA1logF
  have hex2 : ∀ e ∈ finReg st,
      (now.dateLabel, e.1) ∈ existingSet (finalize_today st now).1.log := by
    intro e he
    rw [hlogF, existingSet_append _ _ hlog1ne]
    by_cases hmem1 : (now.dateLabel, e.1) ∈ existingSet (fixLogHeader st.log)
    · exact List.mem_append.mpr (Or.inl hmem1)
    · apply List.mem_append.mpr
      apply Or.inr
      apply List.mem_filterMap.mpr
      refine ⟨logRowFor now now.dateLabel e (finVal st now e.1), ?_, ?_⟩
      · apply List.mem_map.mpr
        refine ⟨e, ?_, rfl⟩
        exact List.mem_filter.mpr ⟨he, decide_eq_true hmem1⟩
      · exact pairOf_logRowFor now now.dateLabel e _ (hshape e he).1
          (hkeys e he) hlbl hlblne
  have hrowfacts2 : ∀ e ∈ finReg st, 2 ≤ rowOf (finRM st now) e.1 ∧
      rowKeyAt (finalize_today st now).1.att (rowOf (finRM st now) e.1) =
        some e.1 := by
    intro e he
    obtain ⟨h2, hle, hkey⟩ := hrowfacts e he
    have h2' : 2 ≤ rowOf (finRM st now) e.1 := h2
    refine ⟨h2', ?_⟩
    rw [hkeysF (rowOf (finRM st now) e.1) (by omega)]
    exact hkey
  have hle2 : ∀ e ∈ finReg st,
      rowOf (finRM st now) e.1 ≤ maxRow (finalize_today st now).1.att := by
    intro e he
    rw [hmaxF]
    exact (hrowfacts e he).2.1
  obtain ⟨h2log, h2cell, h2frame, _, _⟩ :=
    finFold_spec now now.dateLabel (finCol st now)
      (existingSet (finalize_today st now).1.log) (finRM st now)
      (finalize_today st now).1.att hc2 (finReg st) hnd hrowfacts2
      (finalize_today st now).1.att (finalize_today st now).1.log
      (fun r _ => rfl) (fun e _ => rfl) hle2
  have hfilter : (finReg st).filter
      (fun e => decide ((now.dateLabel, e.1) ∉
        existingSet (finalize_today st now).1.log)) = [] := by
    apply List.filter_eq_nil_iff.mpr
    intro e he
    rw [decide_eq_false (not_not_intro (hex2 e he))]
    exact Bool.false_ne_true
  refine ⟨?_, ?_, ?_⟩
  · show ((finReg (finalize_today st now).1).foldl
      (finStep now now.dateLabel (finCol (finalize_today st now).1 now)
        (existingSet (fixLogHeader (finalize_today st now).1.log))
        (finRM (finalize_today st now).1 now))
      (finAtt2 (finalize_today st now).1 now,
        fixLogHeader (finalize_today st now).1.log)).2 =
      (finalize_today st now).1.log
    rw [hreg2, hcol2, hrm2, hatt2eq, hfixlog2, h2log, hfilter,
      List.map_nil, List.append_nil]
  · intro r c hr hc
    show getCell ((finReg (finalize_today st now).1).foldl
      (finStep now now.dateLabel (finCol (finalize_today st now).1 now)
        (existingSet (fixLogHeader (finalize_today st now).1.log))
        (finRM (finalize_today st now).1 now))
      (finAtt2 (finalize_today st now).1 now,
        fixLogHeader (finalize_today st now).1.log)).1 r c =
      getCell (finalize_today st now).1.att r c
    rw [hreg2, hcol2, hrm2, hatt2eq, hfixlog2]
    by_cases hcc : c = finCol st now ∧
        ∃ e ∈ finReg st, r = rowOf (finRM st now) e.1
    · obtain ⟨hceq, e, he, hreq⟩ := hcc
      rw [hceq, hreq, h2cell e he]
      have hc1 : getCell (finalize_today st now).1.att
          (rowOf (finRM st now) e.1) (finCol st now) =
          (if presentCond (finVal st now e.1) then finVal st now e.1
           else CellVal.vStr "A") := hcellF e he
      rw [hc1]
      by_cases hp1 : presentCond (finVal st now e.1)
      · rw [if_pos hp1, if_pos hp1]
      · rw [if_neg hp1, presentCond_A, if_neg Bool.false_ne_true]
    · rw [h2frame r c hr hc]
      rcases not_and_or.mp hcc with h | h
      · exact Or.inl h
      · refine Or.inr (fun e he heq => h ⟨e, he, heq⟩)
  · show get_or_create_students_sheet (finalize_today st now).1.students =
      (finalize_today st now).1.students
    rw [hstud, get_or_create_idem]

/-- C3 counterexample to the claim as stated, which quantifies over every
store state: a Students row holding the whitespace-only name " " loads as
the blank registry key, whose appended `A` log row carries a falsy name
cell and therefore never enters the `existing` set — so a second finalize
on the same day appends the same log row again (log grows from two rows to
three) instead of appending none. -/
theorem c3_counterexample :
    (finalize_today
        (finalize_today
          ⟨[[CellVal.vStr "Name", CellVal.vStr "OfficialStatus"],
            [CellVal.vStr " "]],
           [[CellVal.vStr "Name"]], [], []⟩
          ⟨"10/12", 20261012, 17, 0, 0, 0⟩).1
        ⟨"10/12", 20261012, 17, 0, 0, 0⟩).1.log.length = 3 ∧
    (finalize_today
        ⟨[[CellVal.vStr "Name", CellVal.vStr "OfficialStatus"],
          [CellVal.vStr " "]],
         [[CellVal.vStr "Name"]], [], []⟩
        ⟨"10/12", 20261012, 17, 0, 0, 0⟩).1.log.length = 2 := by
  constructor
  · decide
  · decide

/-- Witness for C3 at a concrete store: one registered student "Ann" with a
time in today's column; the second finalize leaves the log unchanged. -/
theorem c3_witness :
    (finalize_today
        (finalize_today
          ⟨[[CellVal.vStr "Name", CellVal.vStr "OfficialStatus"],
            [CellVal.vStr "Ann", CellVal.vStr "Registered"]],
           [[CellVal.vStr "Name", CellVal.vStr "10/12"],
            [CellVal.vStr "Ann", CellVal.vTime 10 0 0 0]],
           [], []⟩ ⟨"10/12", 20261012, 17, 0, 0, 0⟩).1
        ⟨"10/12", 20261012, 17, 0, 0, 0⟩).1.log =
      (finalize_today
        ⟨[[CellVal.vStr "Name", CellVal.vStr "OfficialStatus"],
          [CellVal.vStr "Ann", CellVal.vStr "Registered"]],
         [[CellVal.vStr "Name", CellVal.vStr "10/12"],
          [CellVal.vStr "Ann", CellVal.vTime 10 0 0 0]],
         [], []⟩ ⟨"10/12", 20261012, 17, 0, 0, 0⟩).1.log :=
  (c3_theorem ⟨[[CellVal.vStr "Name", CellVal.vStr "OfficialStatus"],
      [CellVal.vStr "Ann", CellVal.vStr "Registered"]],
    [[CellVal.vStr "Name", CellVal.vStr "10/12"],
      [CellVal.vStr "Ann", CellVal.vTime 10 0 0 0]],
    [], []⟩ ⟨"10/12", 20261012, 17, 0, 0, 0⟩
    (by decide) (by decide) (by decide) (Or.inr (by decide))
    (Or.inl rfl)).1
